import Mathlib

/-!
# Pupil tracker: a shallow embedding of `pupil_tracker/PupilTracker.cpp`

`PupilTracker::findPupil` is embedded stage by stage.  The OpenCV routines it
calls are library code and appear as the fields of the record `OpenCV`; every
theorem is stated for an arbitrary such record.  What the source itself
programs (the scan of the histogram for spikes, the relaxation loop that marks
contours, the merge of the marked contours and the final branch around the
ellipse fit) is written out in full.  Where a claim speaks about the effect of
a routine on the pixels (`calcHist`, `inRange`, `min`), `gridOps` fills in a
model of that routine on grids, taken from the OpenCV reference.

Conventions.
* A C++ `int` is an `Int`.  The one place where a conversion changes a value,
  the comparison of a `size_t` with an `int`, is explicit (`toSizeT`).
* A `float` is kept as its IEEE-754 binary32 bit pattern (`F32`).
* The `while` loop runs on fuel: one unit per execution of its body.
-/

set_option linter.dupNamespace false
set_option maxRecDepth 100000

namespace Cse4316

/-! ## Data -/

/-- Integer pixel coordinates (`cv::Point`). -/
structure Point where
  x : Int
  y : Int
  deriving DecidableEq

/-- A contour is the ordered sequence of its points (`std::vector<cv::Point>`). -/
abbrev Contour := List Point

/-- A 32-bit float, kept as its IEEE-754 binary32 bit pattern. -/
structure F32 where
  bits : Nat
  deriving DecidableEq

/-- Floating point coordinates (`cv::Point2f`). -/
structure Point2f where
  x : F32
  y : F32
  deriving DecidableEq

/-- Floating point extent (`cv::Size2f`). -/
structure Size2f where
  width : F32
  height : F32
  deriving DecidableEq

/-- The rotated rectangle of an ellipse (`cv::RotatedRect`). -/
structure RotatedRect where
  center : Point2f
  size : Size2f
  angle : F32
  deriving DecidableEq

/-- The fields of `class PupilTracker` (PupilTracker.h, lines 26-41). -/
structure PupilTracker where
  m_ellipseRectangle : RotatedRect
  m_blur : Int
  m_canny_thresh : Int
  m_canny_ratio : Int
  m_canny_aperture : Int
  m_bin_thresh : Int
  m_pupilIntensityOffset : Int
  m_glintIntensityOffset : Int
  m_min_contour_size : Int
  m_confidence : F32
  m_display : Bool
  deriving DecidableEq

/-- The OpenCV routines called by `findPupil`, with the arguments that vary in
the source.  `Mat` is the type of images. -/
structure OpenCV (Mat : Type) where
  /-- Call `cv::cvtColor(src, dst, cv::COLOR_BGR2GRAY)` -/
  cvtColor : Mat → Mat
  /-- Call `cv::normalize(src, dst, alpha, beta, cv::NORM_MINMAX, CV_8UC1)` -/
  normalize : Mat → Int → Int → Mat
  /-- Call `cv::calcHist(&img, 1, channels, cv::Mat(), hist, 1, histSize, &ranges, true, false)`
  with one channel, `histSize` bins and the range from `lo` to `hi`: the bins of
  the histogram, 32-bit floats, in storage order. -/
  calcHist : Mat → Int → Int → Int → List F32
  /-- Call `cv::inRange(src, lowerb, upperb, dst)` -/
  inRange : Mat → Int → Int → Mat
  /-- Call `getStructuringElement(cv::MORPH_ELLIPSE, cv::Size(w, h))` -/
  getStructuringElement : Int → Int → Mat
  /-- Call `cv::dilate(src, dst, kernel, cv::Point(-1, -1), iterations)` -/
  dilate : Mat → Mat → Int → Mat
  /-- Call `cv::erode(src, dst, kernel, cv::Point(-1, -1), iterations)` -/
  erode : Mat → Mat → Int → Mat
  /-- Call `cv::blur(src, dst, cv::Size(w, h))` -/
  blur : Mat → Int → Int → Mat
  /-- Call `cv::Canny(image, edges, threshold1, threshold2, apertureSize)` -/
  Canny : Mat → Int → Int → Int → Mat
  /-- Call `cv::min(src1, src2, dst)` -/
  min : Mat → Mat → Mat
  /-- Call `cv::findContours(image, contours, cv::RETR_CCOMP, cv::CHAIN_APPROX_SIMPLE)` -/
  findContours : Mat → List Contour
  /-- Call `cv::Mat::zeros(m.size(), CV_8UC1)` -/
  zeros : Mat → Mat
  /-- Call `cv::drawContours(image, contours, contourIdx, cv::Scalar(255))` -/
  drawContours : Mat → List Contour → Nat → Mat
  /-- Call `cv::fitEllipse(points)` -/
  fitEllipse : List Point → RotatedRect

/-! ## Constructor and accessors -/

/-- The value `0.0f`. -/
def F32.zero : F32 := ⟨0⟩

/-- A default constructed `cv::RotatedRect`: centre, size and angle all zero. -/
def RotatedRect.zero : RotatedRect := ⟨⟨F32.zero, F32.zero⟩, ⟨F32.zero, F32.zero⟩, F32.zero⟩

/-- Method `PupilTracker::setDisplay` (lines 241-244). -/
def setDisplay (t : PupilTracker) (display : Bool) : PupilTracker :=
  { t with m_display := display }

/-- The body of the constructor (lines 20-32) on the members as they are at
entry: the member `m_ellipseRectangle` has been default constructed, the nine
assignments of lines 21-29 are made, and `m_display` is assigned by the call
`setDisplay(false)` of line 32 only. -/
def PupilTracker.constructorBody (storage : PupilTracker) : PupilTracker :=
  setDisplay
    { storage with
      m_ellipseRectangle := RotatedRect.zero
      m_blur := 5
      m_canny_thresh := 159
      m_canny_ratio := 2
      m_canny_aperture := 5
      m_bin_thresh := 0
      m_pupilIntensityOffset := 11
      m_glintIntensityOffset := 5
      m_min_contour_size := 80
      m_confidence := F32.zero }
    false

/-- Members that no code has assigned yet.  Their values are indeterminate in the
source; here every number is -1 and the display flag is set, so that no value
which the constructor is to establish is there beforehand. -/
def uninitialised : PupilTracker :=
  { m_ellipseRectangle := ⟨⟨⟨1⟩, ⟨1⟩⟩, ⟨⟨1⟩, ⟨1⟩⟩, ⟨1⟩⟩
    m_blur := -1
    m_canny_thresh := -1
    m_canny_ratio := -1
    m_canny_aperture := -1
    m_bin_thresh := -1
    m_pupilIntensityOffset := -1
    m_glintIntensityOffset := -1
    m_min_contour_size := -1
    m_confidence := ⟨1⟩
    m_display := true }

/-- Constructor `PupilTracker::PupilTracker` (lines 18-33): the body run on
uninitialised members. -/
def PupilTracker.PupilTracker : PupilTracker := PupilTracker.constructorBody uninitialised

/-- Method `PupilTracker::getEllipseCentroid` (lines 221-224). -/
def getEllipseCentroid (t : PupilTracker) : Point2f := t.m_ellipseRectangle.center

/-- Method `PupilTracker::getEllipseRectangle` (lines 231-234). -/
def getEllipseRectangle (t : PupilTracker) : RotatedRect := t.m_ellipseRectangle

/-! ## Histogram spikes (lines 65-92) -/

/-- The number of binary digits of `n` minus one, for `0 < n < 2 ^ fuel`. -/
def ilog2 : Nat → Nat → Nat
  | 0, _ => 0
  | fuel + 1, n => if n < 2 then 0 else ilog2 fuel (n / 2) + 1

/-- The binary32 float nearest to the natural number `n` (ties to even), as
`(float) n` computes it; every `n < 2 ^ 24` is represented exactly.  Counts
beyond the largest finite float are not expected (`n < 2 ^ 128`). -/
def F32.ofNat (n : Nat) : F32 :=
  if n = 0 then ⟨0⟩
  else
    let e := ilog2 128 n
    if e ≤ 23 then
      ⟨(127 + e) * 2 ^ 23 + (n - 2 ^ e) * 2 ^ (23 - e)⟩
    else
      let shift := e - 23
      let q := n / 2 ^ shift
      let r := n % 2 ^ shift
      let half := 2 ^ (shift - 1)
      let q1 := if half < r ∨ (r = half ∧ q % 2 = 1) then q + 1 else q
      ⟨(127 + e) * 2 ^ 23 + (q1 - 2 ^ 23)⟩

/-- The value of `hist.at<uchar>(0, i)` (line 73).  `hist` is the matrix that
`cv::calcHist` has filled: 256 rows, one column, element type `CV_32F`, stored
contiguously.  `cv::Mat::at<uchar>(0, i)` is `((uchar*)(data + step[0] * 0))[i]`:
it does not look at the element type of the matrix (the checks of `at` are
`CV_DbgAssert`s, compiled out of a release build), so it yields the byte at
offset `i` of the storage, that is byte `i % 4` (little endian) of the float
in bin `i / 4`. -/
def histAtUchar (hist : List F32) (i : Nat) : Nat :=
  (hist.getD (i / 4) ⟨0⟩).bits / 256 ^ (i % 4) % 256

/-- The local variables of the spike scan. -/
structure SpikeVars where
  lowestSpike : Int
  highestSpike : Int
  numSpikes : Int
  deriving DecidableEq

/-- The body of the `for` loop of lines 70-85 at index `i`; `histAt i` is the
value read by `hist.at<uchar>(0, i)` and `minSpikeSize` is 40. -/
def spikeStep (histAt : Nat → Nat) (s : SpikeVars) (i : Nat) : SpikeVars :=
  if (histAt i : Int) ≥ 40 then
    let s1 := { s with numSpikes := s.numSpikes + 1 }
    let s2 := if (i : Int) < s1.lowestSpike then { s1 with lowestSpike := i } else s1
    if (i : Int) > s2.highestSpike then { s2 with highestSpike := i } else s2
  else s

/-- The `for` loop of lines 70-85: `i` runs from 0 to `histSize[0] - 1 = 255`,
starting from `lowestSpike = rangeMax`, `highestSpike = rangeMin`, `numSpikes = 0`. -/
def spikeScan (histAt : Nat → Nat) : SpikeVars :=
  (List.range 256).foldl (spikeStep histAt) ⟨255, 0, 0⟩

/-- Lines 86-91: with fewer than two spikes the defaults 0 and 255 are assigned. -/
def spikeDefaults (s : SpikeVars) : SpikeVars :=
  if s.numSpikes < 2 then { s with lowestSpike := 0, highestSpike := 255 } else s

/-- Lines 65-91 as a whole, for a given reading of the histogram. -/
def findSpikes (histAt : Nat → Nat) : SpikeVars := spikeDefaults (spikeScan histAt)

/-! ## Merge candidacy: the relaxation loop (lines 150-172) -/

/-- Conversion of an `int` to `size_t` (64 bits): the value modulo `2 ^ 64`. -/
def toSizeT (z : Int) : Nat := (z % 2 ^ 64).toNat

/-- The test `contours.at(i).size() < m_min_contour_size - relaxContourMerge`
(line 159).  The left operand is a `size_t`, the right one an `int`, so the
usual arithmetic conversions turn the right operand into a `size_t` and the
comparison is unsigned. -/
def sizeTooSmall (size : Nat) (minContourSize relax : Int) : Bool :=
  decide (size < toSizeT (minContourSize - relax))

/-- The local variables of the relaxation loop.  `thresholds` is a ghost
variable: the value of `m_min_contour_size - relaxContourMerge` in each pass
executed so far, oldest first. -/
structure MergeVars where
  contourMergeable : List Bool
  retryContourMerge : Bool
  relaxContourMerge : Int
  thresholds : List Int
  deriving DecidableEq

/-- Number of executions of the body of the `while` loop. -/
def MergeVars.passes (s : MergeVars) : Nat := s.thresholds.length

/-- Lines 151-153: `contourMergeable(contours.size())` holds `false` everywhere. -/
def mergeInit (contours : List Contour) : MergeVars :=
  { contourMergeable := List.replicate contours.length false
    retryContourMerge := true
    relaxContourMerge := 0
    thresholds := [] }

/-- The body of the inner `for` loop (lines 158-169) at index `i`. -/
def markStep (contours : List Contour) (minContourSize : Int) (s : MergeVars) (i : Nat) :
    MergeVars :=
  if sizeTooSmall (contours.getD i []).length minContourSize s.relaxContourMerge then
    { s with contourMergeable := s.contourMergeable.set i false }
  else
    { s with contourMergeable := s.contourMergeable.set i true, retryContourMerge := false }

/-- The inner `for` loop (lines 156-170): `i` runs over all contours. -/
def markPass (contours : List Contour) (minContourSize : Int) (s : MergeVars) : MergeVars :=
  (List.range contours.length).foldl (markStep contours minContourSize) s

/-- The body of the `while` loop (lines 155-172): one marking pass, then
`relaxContourMerge += 2`. -/
def mergeBody (contours : List Contour) (minContourSize : Int) (s : MergeVars) : MergeVars :=
  let s1 := markPass contours minContourSize
    { s with thresholds := s.thresholds ++ [minContourSize - s.relaxContourMerge] }
  { s1 with relaxContourMerge := s1.relaxContourMerge + 2 }

/-- The guard of the `while` loop (line 154). -/
def mergeGuard (contours : List Contour) (s : MergeVars) : Bool :=
  s.retryContourMerge && decide (contours.length > 0)

/-- The `while` loop of lines 154-172.  Each execution of the body uses one
unit of fuel; `none` means that the fuel did not suffice to reach the exit. -/
def mergeLoop (contours : List Contour) (minContourSize : Int) : Nat → MergeVars → Option MergeVars
  | 0, s => if mergeGuard contours s then none else some s
  | fuel + 1, s =>
    if mergeGuard contours s then
      mergeLoop contours minContourSize fuel (mergeBody contours minContourSize s)
    else some s

/-! ## Contour merging (lines 174-183) -/

/-- The variables written by the merging loop. -/
structure MergedVars where
  contoursMerged : List Point
  success : Bool
  deriving DecidableEq

/-- The body of the `for` loop of lines 176-183 at index `i`. -/
def mergeStep (contours : List Contour) (contourMergeable : List Bool) (m : MergedVars)
    (i : Nat) : MergedVars :=
  if contourMergeable.getD i false then
    { success := true, contoursMerged := m.contoursMerged ++ contours.getD i [] }
  else m

/-- Lines 174-183; `success` is still `false` from line 44 when the loop starts. -/
def performMerge (contours : List Contour) (contourMergeable : List Bool) : MergedVars :=
  (List.range contours.length).foldl (mergeStep contours contourMergeable) ⟨[], false⟩

/-! ## The call `findPupil` (lines 42-214) -/

/-- Lines 46-51: the normalized grayscale image. -/
def imageGrayOf {Mat : Type} (cv : OpenCV Mat) (imageIn : Mat) : Mat :=
  cv.normalize (cv.cvtColor imageIn) 0 255

/-- Lines 57-63: the histogram with `rangeMax - rangeMin + 1 = 256` bins over the
range from 0 to 255. -/
def histOf {Mat : Type} (cv : OpenCV Mat) (imageIn : Mat) : List F32 :=
  cv.calcHist (imageGrayOf cv imageIn) 256 0 255

/-- Lines 65-91 on the histogram of the frame. -/
def spikesOf {Mat : Type} (cv : OpenCV Mat) (imageIn : Mat) : SpikeVars :=
  findSpikes (histAtUchar (histOf cv imageIn))

/-- Lines 94-98: the mask of the dark pupil area. -/
def darkMaskOf {Mat : Type} (cv : OpenCV Mat) (t : PupilTracker) (imageIn : Mat) : Mat :=
  cv.dilate
    (cv.inRange (imageGrayOf cv imageIn) 0 ((spikesOf cv imageIn).lowestSpike + t.m_pupilIntensityOffset))
    (cv.getStructuringElement 7 7) 2

/-- Lines 104-107: the mask of the light glint area. -/
def glintMaskOf {Mat : Type} (cv : OpenCV Mat) (t : PupilTracker) (imageIn : Mat) : Mat :=
  cv.erode
    (cv.inRange (imageGrayOf cv imageIn) 0 ((spikesOf cv imageIn).highestSpike - t.m_glintIntensityOffset))
    (cv.getStructuringElement 7 7) 1

/-- Lines 113-123: the additional blurring. -/
def imageBlurredOf {Mat : Type} (cv : OpenCV Mat) (t : PupilTracker) (imageIn : Mat) : Mat :=
  if t.m_blur > 1 then cv.blur (imageGrayOf cv imageIn) t.m_blur t.m_blur
  else imageGrayOf cv imageIn

/-- Lines 129-131: the canny edges. -/
def edgesOf {Mat : Type} (cv : OpenCV Mat) (t : PupilTracker) (imageIn : Mat) : Mat :=
  cv.Canny (imageBlurredOf cv t imageIn) t.m_canny_thresh (t.m_canny_thresh * t.m_canny_ratio)
    t.m_canny_aperture

/-- Lines 137-140: the edges outside of the two masks are removed. -/
def edgesPrunedOf {Mat : Type} (cv : OpenCV Mat) (t : PupilTracker) (imageIn : Mat) : Mat :=
  cv.min (cv.min (edgesOf cv t imageIn) (darkMaskOf cv t imageIn)) (glintMaskOf cv t imageIn)

/-- Lines 146-148: the contours of the pruned edge map. -/
def contoursOf {Mat : Type} (cv : OpenCV Mat) (t : PupilTracker) (imageIn : Mat) : List Contour :=
  cv.findContours (edgesPrunedOf cv t imageIn)

/-- The body of the `for` loop of lines 191-198 at index `i`, on the pair
`(edgesContoured, filteredContours)`. -/
def drawStep {Mat : Type} (cv : OpenCV Mat) (contours : List Contour)
    (contourMergeable : List Bool) (d : Mat × Mat) (i : Nat) : Mat × Mat :=
  if contourMergeable.getD i false then
    (cv.drawContours d.1 contours i, cv.drawContours d.2 contours i)
  else (cv.drawContours d.1 contours i, d.2)

/-- The windows handed to `cv::imshow` when `m_display` is set, in the order of
the calls (lines 52-55, 99-102, 108-111, 124-127, 132-135, 141-144, 186-201). -/
def shownOf {Mat : Type} (cv : OpenCV Mat) (t : PupilTracker) (imageIn : Mat)
    (contourMergeable : List Bool) : List (String × Mat) :=
  if t.m_display then
    let contours := contoursOf cv t imageIn
    let blank := cv.zeros (edgesPrunedOf cv t imageIn)
    let d := (List.range contours.length).foldl (drawStep cv contours contourMergeable)
      (blank, blank)
    [("imageGray", imageGrayOf cv imageIn), ("darkMask", darkMaskOf cv t imageIn),
      ("glintMask", glintMaskOf cv t imageIn), ("imageBlurred", imageBlurredOf cv t imageIn),
      ("edges", edgesOf cv t imageIn), ("edgesPruned", edgesPrunedOf cv t imageIn),
      ("edgesContoured", d.1), ("filteredContours", d.2)]
  else []

/-- What the body of `findPupil` does when every library routine it calls
returns.  `fitCalls` lists the arguments of the calls of `cv::fitEllipse`,
`shown` the calls of `cv::imshow`; `returned` is the value of the `return`
statement that is reached and `tracker` holds the fields of the object after
it.  The other fields are the values of the local variables of the same names
(`merge` and `merged` group those of the two loops) at the end of the body.
A library routine that raises an error ends the call before it returns:
`findPupilEnd` says how the call ends. -/
structure FindPupilRun (Mat : Type) where
  lowestSpike : Int
  highestSpike : Int
  contours : List Contour
  merge : MergeVars
  merged : MergedVars
  fitCalls : List (List Point)
  shown : List (String × Mat)
  returned : Bool
  tracker : PupilTracker

/-- The body of method `PupilTracker::findPupil` (lines 42-214), with the library
routines as functions.  The result is `none` when `fuel` does not suffice for
the `while` loop of lines 154-172.  The errors that `cv::cvtColor` and
`cv::fitEllipse` raise are not part of this record: see `findPupilEnd`. -/
def findPupil {Mat : Type} (cv : OpenCV Mat) (fuel : Nat) (t : PupilTracker) (imageIn : Mat) :
    Option (FindPupilRun Mat) :=
  let spikes := spikesOf cv imageIn
  let t1 := { t with m_bin_thresh := spikes.lowestSpike }
  let contours := contoursOf cv t1 imageIn
  match mergeLoop contours t1.m_min_contour_size fuel (mergeInit contours) with
  | none => none
  | some mv =>
    let merged := performMerge contours mv.contourMergeable
    let shown := shownOf cv t1 imageIn mv.contourMergeable
    if merged.success then
      some
        { lowestSpike := spikes.lowestSpike
          highestSpike := spikes.highestSpike
          contours := contours
          merge := mv
          merged := merged
          fitCalls := [merged.contoursMerged]
          shown := shown
          returned := true
          tracker := { t1 with m_ellipseRectangle := cv.fitEllipse merged.contoursMerged } }
    else
      some
        { lowestSpike := spikes.lowestSpike
          highestSpike := spikes.highestSpike
          contours := contours
          merge := mv
          merged := merged
          fitCalls := []
          shown := shown
          returned := false
          tracker := t1 }

/-! ## Specification vocabulary -/

/-- The flag that a marking pass with relaxation `relax` writes for the contour `c`. -/
def qualifies (minContourSize relax : Int) (c : Contour) : Bool :=
  !sizeTooSmall c.length minContourSize relax

/-- The contours paired with a set flag, in the order of the contour list. -/
def mergeableContours (contours : List Contour) (contourMergeable : List Bool) : List Contour :=
  ((contours.zip contourMergeable).filter (fun cb => cb.2)).map (fun cb => cb.1)

/-- The state in which the loop stops when it is entered in state `s` and the
first pass in which a contour qualifies is the one after `j` failed passes. -/
def mergeExit (contours : List Contour) (m : Int) (s : MergeVars) (j : Nat) : MergeVars :=
  { contourMergeable := contours.map (qualifies m (s.relaxContourMerge + 2 * j))
    retryContourMerge := false
    relaxContourMerge := s.relaxContourMerge + 2 * j + 2
    thresholds :=
      s.thresholds ++
        (List.range (j + 1)).map (fun (i : Nat) => m - (s.relaxContourMerge + 2 * (i : Int))) }

/-- Both spike levels lie in the range of the bin indices. -/
def SpikeVars.InRange (s : SpikeVars) : Prop :=
  0 ≤ s.lowestSpike ∧ s.lowestSpike ≤ 255 ∧ 0 ≤ s.highestSpike ∧ s.highestSpike ≤ 255

/-- Bin counts with 5000 pixels in bin 0, 5000 pixels in bin 128 and no pixel
elsewhere: two bins reach the minimum spike size. -/
def twoLevelCounts : List Nat :=
  5000 :: (List.replicate 127 0 ++ 5000 :: List.replicate 127 0)

/-- The bin counts of a uniform frame of 100 x 100 pixels (`cv::normalize` maps
a uniform frame to intensity 0): one bin holds all 10000 pixels. -/
def uniformCounts : List Nat := 10000 :: List.replicate 255 0

/-- The histogram matrix holding the given bin counts: each count as a float. -/
def histOfCounts (counts : List Nat) : List F32 := counts.map F32.ofNat

/-- The indices of the bins whose count reaches the minimum spike size 40. -/
def spikeBins (counts : List Nat) : List Nat :=
  (List.range 256).filter (fun i => decide (40 ≤ counts.getD i 0))

/-- Two points used in the sample contours. -/
def p00 : Point := ⟨0, 0⟩

/-- See `p00`. -/
def p10 : Point := ⟨1, 0⟩

/-- A stand-in for the library on which `findPupil` can be run for a chosen list
of contours: an image is the list of contours that `findContours` finds in it,
every image operation returns its first image argument, the histogram has no
bins and the fitted ellipse is the zero rectangle. -/
def contourLib : OpenCV (List Contour) :=
  { cvtColor := fun m => m
    normalize := fun m _ _ => m
    calcHist := fun _ _ _ _ => []
    inRange := fun m _ _ => m
    getStructuringElement := fun _ _ => []
    dilate := fun m _ _ => m
    erode := fun m _ _ => m
    blur := fun m _ _ => m
    Canny := fun m _ _ _ => m
    min := fun m _ => m
    findContours := fun m => m
    zeros := fun m => m
    drawContours := fun m _ _ => m
    fitEllipse := fun _ => RotatedRect.zero }

/-! ## Images as grids, and the library routines that act on pixels -/

/-- An 8-bit single-channel image (`CV_8UC1`): the rows of its pixel values. -/
abbrev Gray := List (List Nat)

/-- The value at row `r` and column `c`, when that position lies in the image. -/
def pixel (g : Gray) (r c : Nat) : Option Nat := (g[r]?).bind (fun row => row[c]?)

/-- The number of pixels of the image. -/
def numPixels (g : Gray) : Nat := g.flatten.length

/-- The number of pixels of intensity `v`. -/
def countIntensity (g : Gray) (v : Nat) : Nat := g.flatten.count v

/-- The bin of a uniform histogram in which `cv::calcHist` counts the value `v`.
The OpenCV reference states that, for a uniform histogram, `ranges` holds the
lower (inclusive) boundary of bin 0 and the upper (exclusive) boundary of the
last bin, that the bins divide this range evenly, and that values outside the
range are not counted. -/
def calcHistBin (histSize lo hi : Int) (v : Nat) : Option Nat :=
  if lo ≤ (v : Int) ∧ (v : Int) < hi then
    some ((((v : Int) - lo) * histSize / (hi - lo)).toNat)
  else none

/-- The bin counts that `cv::calcHist` computes for a single-channel 8-bit image,
without mask, uniform and not accumulating, with `histSize` bins over the range
from `lo` to `hi`. -/
def calcHistCounts (img : Gray) (histSize lo hi : Int) : List Nat :=
  (List.range histSize.toNat).map
    (fun b => img.flatten.countP (fun v => calcHistBin histSize lo hi v == some b))

/-- The routine `cv::inRange` with scalar bounds on an 8-bit image: a pixel of the
result is 255 when the source pixel lies between the bounds, both inclusive,
and 0 otherwise. -/
def inRange (src : Gray) (lowerb upperb : Int) : Gray :=
  src.map (fun row =>
    row.map (fun (v : Nat) => if lowerb ≤ (v : Int) ∧ (v : Int) ≤ upperb then 255 else 0))

/-- The routine `cv::min` on two images of the same size: the minimum pixel by
pixel. -/
def gridMin (a b : Gray) : Gray := List.zipWith (List.zipWith Nat.min) a b

/-- The library with the routines that act on pixels filled in: `calcHist`,
`inRange` and `min` are the models above (the histogram stores each count as a
float), all other routines are those of `cv`. -/
def gridOps (cv : OpenCV Gray) : OpenCV Gray :=
  { cv with
    calcHist := fun img histSize lo hi => histOfCounts (calcHistCounts img histSize lo hi)
    inRange := inRange
    min := gridMin }

/-- A stand-in for the remaining routines on grids: every image operation returns
its first image argument, no contour is found and the fitted ellipse is the
zero rectangle. -/
def plainLib : OpenCV Gray :=
  { cvtColor := fun m => m
    normalize := fun m _ _ => m
    calcHist := fun _ _ _ _ => []
    inRange := fun m _ _ => m
    getStructuringElement := fun _ _ => []
    dilate := fun m _ _ => m
    erode := fun m _ _ => m
    blur := fun m _ _ => m
    Canny := fun m _ _ _ => m
    min := fun m _ => m
    findContours := fun _ => []
    zeros := fun m => m
    drawContours := fun m _ _ => m
    fitEllipse := fun _ => RotatedRect.zero }

/-- A normalized frame of 2 x 2 pixels with the intensities 0, 255, 128, 255. -/
def sampleFrame : Gray := [[0, 255], [128, 255]]

/-- A tracker as an earlier successful call may have left it: the configuration
of the constructor, a stored ellipse and a retained threshold. -/
def usedTracker : PupilTracker :=
  { PupilTracker.PupilTracker with
    m_ellipseRectangle := ⟨⟨⟨1⟩, ⟨2⟩⟩, ⟨⟨3⟩, ⟨4⟩⟩, ⟨5⟩⟩
    m_bin_thresh := 17 }

/-- Two images have the same size. -/
def SameSize (a b : Gray) : Prop := a.map List.length = b.map List.length

/-- Every pixel of the image is 0 or 255. -/
def Binary (a : Gray) : Prop := ∀ row ∈ a, ∀ v ∈ row, v = 0 ∨ v = 255

/-- The configuration of a tracker: the settings that `findPupil` reads. -/
structure TrackerConfig where
  blur : Int
  cannyThreshold : Int
  cannyRatio : Int
  cannyAperture : Int
  pupilIntensityOffset : Int
  glintIntensityOffset : Int
  minContourSize : Int
  deriving DecidableEq

/-- The configuration held by a tracker object. -/
def configOf (t : PupilTracker) : TrackerConfig :=
  { blur := t.m_blur
    cannyThreshold := t.m_canny_thresh
    cannyRatio := t.m_canny_ratio
    cannyAperture := t.m_canny_aperture
    pupilIntensityOffset := t.m_pupilIntensityOffset
    glintIntensityOffset := t.m_glintIntensityOffset
    minContourSize := t.m_min_contour_size }

/-- What a caller can observe of a call: the value returned, the spike levels,
the contours, the variables of the two loops, the calls of `cv::fitEllipse`,
`m_bin_thresh` after the call and, when the call returned `true`, the stored
ellipse after the call. -/
def outcomeOf {Mat : Type} (r : FindPupilRun Mat) :
    Bool × Int × Int × List Contour × MergeVars × MergedVars × List (List Point) × Int ×
      Option RotatedRect :=
  (r.returned, r.lowestSpike, r.highestSpike, r.contours, r.merge, r.merged, r.fitCalls,
    r.tracker.m_bin_thresh, if r.returned then some r.tracker.m_ellipseRectangle else none)

/-! ## Morphology, blank images and library errors -/

/-- The integer square root, by search. -/
def isqrt (n : Nat) : Nat := ((List.range (n + 1)).filter (fun k => k * k ≤ n)).length - 1

/-- Row `i` of the structuring element that
`getStructuringElement(cv::MORPH_ELLIPSE, cv::Size(w, h))` returns.  With
`r = h / 2`, `c = w / 2` and `dy = i - r` the library sets the columns from
`max(c - dx, 0)` to `min(c + dx + 1, w) - 1` to 1, where `dx` is
`c * sqrt((r * r - dy * dy) / (r * r))` rounded to the nearest integer (0 when
`r = 0`). -/
def ellipseRow (w h i : Nat) : List Nat :=
  let r := h / 2
  let c := w / 2
  let d := if r ≤ i then i - r else r - i
  let dx := if r = 0 then 0 else (isqrt (4 * c * c * (r * r - d * d) / (r * r)) + 1) / 2
  (List.range w).map (fun j => if c - dx ≤ j ∧ j < min (c + dx + 1) w then 1 else 0)

/-- The routine `getStructuringElement` for the shape `cv::MORPH_ELLIPSE`. -/
def getStructuringElement (w h : Int) : Gray :=
  (List.range h.toNat).map (ellipseRow w.toNat h.toNat)

/-- The positions (row, column) of the non-zero elements of a structuring
element, relative to its anchor; the anchor `cv::Point(-1, -1)` stands for the
centre, at column `cols / 2` and row `rows / 2`. -/
def kernelOffsets (kernel : Gray) : List (Int × Int) :=
  (List.range kernel.length).flatMap (fun i =>
    ((List.range (kernel.getD i []).length).filter
        (fun j => (kernel.getD i []).getD j 0 != 0)).map
      (fun j => ((i : Int) - ((kernel.length / 2 : Nat) : Int),
        (j : Int) - (((kernel.getD i []).length / 2 : Nat) : Int))))

/-- The pixel at a signed position, when that position lies in the image. -/
def pixelAt (g : Gray) (r c : Int) : Option Nat :=
  if 0 ≤ r ∧ 0 ≤ c then pixel g r.toNat c.toNat else none

/-- The pixels of the image under the non-zero elements of the structuring
element anchored at `(r, c)`; positions outside the image are left out, which
is how the default border of `cv::dilate` and `cv::erode` behaves. -/
def neighbours (kernel src : Gray) (r c : Nat) : List Nat :=
  (kernelOffsets kernel).filterMap (fun o => pixelAt src ((r : Int) + o.1) ((c : Int) + o.2))

/-- One pass of `cv::dilate`: each pixel becomes the maximum over its neighbours. -/
def dilateOnce (kernel src : Gray) : Gray :=
  (List.range src.length).map (fun r =>
    (List.range (src.getD r []).length).map (fun c =>
      (neighbours kernel src r c).foldl Nat.max 0))

/-- One pass of `cv::erode`: each pixel becomes the minimum over its neighbours. -/
def erodeOnce (kernel src : Gray) : Gray :=
  (List.range src.length).map (fun r =>
    (List.range (src.getD r []).length).map (fun c =>
      (neighbours kernel src r c).foldl Nat.min 255))

/-- The routine `cv::dilate` with the anchor at the centre: `iterations` passes. -/
def dilate (src kernel : Gray) (iterations : Int) : Gray :=
  Nat.iterate (dilateOnce kernel) iterations.toNat src

/-- The routine `cv::erode` with the anchor at the centre: `iterations` passes. -/
def erode (src kernel : Gray) (iterations : Int) : Gray :=
  Nat.iterate (erodeOnce kernel) iterations.toNat src

/-- The library with the morphology filled in as well: `getStructuringElement`,
`dilate` and `erode` are the models above, on top of `gridOps`. -/
def morphOps (cv : OpenCV Gray) : OpenCV Gray :=
  { gridOps cv with
    getStructuringElement := getStructuringElement
    dilate := dilate
    erode := erode }

/-- Every pixel of the image is 0. -/
def isBlank (g : Gray) : Bool := g.flatten.all (fun v => v == 0)

/-- The library for a frame that is given by its normalized grayscale image:
`cvtColor` and `normalize` hand that image on, the pixel routines and the
morphology are the models above, and `findContours` finds no contour in an
image without a non-zero pixel; all other routines are those of `cv`. -/
def frameOps (cv : OpenCV Gray) : OpenCV Gray :=
  { morphOps cv with
    cvtColor := fun m => m
    normalize := fun m _ _ => m
    findContours := fun m => if isBlank m then [] else cv.findContours m }

/-- A pixel is selected in a mask: it lies in the image and is not 0. -/
def Selected (g : Gray) (r c : Nat) : Prop := ∃ v, pixel g r c = some v ∧ v ≠ 0

/-- The normalized grayscale image of a uniform frame of `rows` x `cols` pixels:
`cv::normalize` with `cv::NORM_MINMAX` maps a frame of one intensity to 0. -/
def blankFrame (rows cols : Nat) : Gray := List.replicate rows (List.replicate cols 0)

/-- The bin counts of a uniform frame of 5 x 6 pixels: no bin reaches the
minimum spike size. -/
def smallUniformCounts : List Nat := 30 :: List.replicate 255 0

/-- How a call of `findPupil` ends.  `findPupil` has no handler, so an error
raised by a library routine ends the call. -/
inductive CallEnd where
  | returned (flag : Bool)
  | cvtColorError
  | fitEllipseError
  deriving DecidableEq

/-- The routine `cv::cvtColor` with `cv::COLOR_BGR2GRAY` accepts an image of 3 or 4
channels and raises an error for any other number of channels. -/
def cvtColorAccepts (channels : Nat) : Bool := channels == 3 || channels == 4

/-- The routine `cv::fitEllipse` raises an error for fewer than 5 points. -/
def fitEllipseAccepts (points : List Point) : Bool := decide (5 ≤ points.length)

/-- The end of a call of `findPupil` on a frame with the given number of
channels, with the errors of `cv::cvtColor` (line 50, the first library call)
and of `cv::fitEllipse` (line 206, the last one); the routines called in
between are taken not to raise an error. -/
def findPupilEnd {Mat : Type} (cv : OpenCV Mat) (channels : Nat) (fuel : Nat) (t : PupilTracker)
    (imageIn : Mat) : Option CallEnd :=
  if cvtColorAccepts channels then
    (findPupil cv fuel t imageIn).map (fun run =>
      if run.fitCalls.all fitEllipseAccepts then CallEnd.returned run.returned
      else CallEnd.fitEllipseError)
  else some CallEnd.cvtColorError

/-- Five contours of a single point each: scattered single-pixel noise. -/
def noiseContours : List Contour :=
  [[⟨0, 0⟩], [⟨3, 1⟩], [⟨6, 2⟩], [⟨1, 5⟩], [⟨4, 7⟩]]

/-! ## The colour detector (`cv_demo/cv_color_detector.cpp`) -/

/-- Function `normSqr` (lines 198-205), over a number type `F` with its arithmetic. -/
def normSqr {F : Type} [Add F] [Sub F] [Mul F] (x1 y1 z1 x2 y2 z2 : F) : F :=
  (x1 - x2) * (x1 - x2) + (y1 - y2) * (y1 - y2) + (z1 - z2) * (z1 - z2)

/-- The variables `minError` and `bestFit` of `labelColor`. -/
structure FitVars (F : Type) where
  minError : F
  bestFit : Char

/-- One of the six blocks "check ... fitness" of `labelColor` (lines 144-185). -/
def checkFitness {F : Type} [LinearOrder F] (s : FitVars F) (errorSqr : F) (label : Char) :
    FitVars F :=
  if errorSqr < s.minError then { minError := errorSqr, bestFit := label } else s

/-- Function `labelColor` from line 130 on, as a function of the three averages
`avg_b`, `avg_g`, `avg_r` that lines 104-127 compute from the image. -/
def labelColor {F : Type} [LinearOrder F] [Add F] [Sub F] [Mul F] [OfScientific F]
    (avg_b avg_g avg_r : F) : Char :=
  let s0 : FitVars F := { minError := 3.0, bestFit := 'x' }
  let s1 := checkFitness s0 (normSqr 0.4 0.5 1.8 avg_b avg_g avg_r) 'r'
  let s2 := checkFitness s1 (normSqr 1.0 1.2 1.0 avg_b avg_g avg_r) 'g'
  let s3 := checkFitness s2 (normSqr 1.75 1.0 0.5 avg_b avg_g avg_r) 'b'
  let s4 := checkFitness s3 (normSqr 0.82 1.7 1.7 avg_b avg_g avg_r) 'y'
  let s5 := checkFitness s4 (normSqr 0.2 1.0 2.0 avg_b avg_g avg_r) 'o'
  let s6 := checkFitness s5 (normSqr 2.0 1.7 1.7 avg_b avg_g avg_r) 'w'
  s6.bestFit

/-- The six reference colours of `labelColor` in the order of the checks, each
with its squared error to the averages and its label. -/
def refErrors {F : Type} [Add F] [Sub F] [Mul F] [OfScientific F] (avg_b avg_g avg_r : F) :
    List (F × Char) :=
  [(normSqr 0.4 0.5 1.8 avg_b avg_g avg_r, 'r'), (normSqr 1.0 1.2 1.0 avg_b avg_g avg_r, 'g'),
    (normSqr 1.75 1.0 0.5 avg_b avg_g avg_r, 'b'), (normSqr 0.82 1.7 1.7 avg_b avg_g avg_r, 'y'),
    (normSqr 0.2 1.0 2.0 avg_b avg_g avg_r, 'o'), (normSqr 2.0 1.7 1.7 avg_b avg_g avg_r, 'w')]

/-! ## Lemmas on the loops -/

theorem foldl_markStep_range (contours : List Contour) (m : Int) (s : MergeVars) :
    ∀ k, k ≤ contours.length → s.contourMergeable.length = contours.length →
      (List.range k).foldl (markStep contours m) s =
        { s with
          contourMergeable :=
            (contours.take k).map (qualifies m s.relaxContourMerge) ++ s.contourMergeable.drop k
          retryContourMerge :=
            s.retryContourMerge && !(contours.take k).any (qualifies m s.relaxContourMerge) } := by
  intro k
  induction k with
  | zero => intro _ _; simp
  | succ k ih =>
    intro hk hlen
    have hk1 : k < contours.length := hk
    have hk2 : k < s.contourMergeable.length := by omega
    rw [List.range_succ, List.foldl_append, ih (by omega) hlen]
    have htake : contours.take (k + 1) = contours.take k ++ [contours[k]] := by
      rw [← List.take_concat_get contours k hk1, List.concat_eq_append]
    have hdrop : s.contourMergeable.drop k
        = s.contourMergeable[k] :: s.contourMergeable.drop (k + 1) :=
      List.drop_eq_getElem_cons hk2
    have hlenk : ((contours.take k).map (qualifies m s.relaxContourMerge)).length = k := by
      simp; omega
    have hget : contours.getD k [] = contours[k] := by
      simp [List.getD, List.getElem?_eq_getElem hk1]
    have hset : ∀ v : Bool,
        ((contours.take k).map (qualifies m s.relaxContourMerge) ++ s.contourMergeable.drop k).set k v
          = (contours.take k).map (qualifies m s.relaxContourMerge)
              ++ v :: s.contourMergeable.drop (k + 1) := by
      intro v
      rw [List.set_append_right k v (by omega), hlenk, hdrop, Nat.sub_self, List.set_cons_zero]
    simp only [List.foldl_cons, List.foldl_nil, markStep, hget, hset, htake, List.map_append,
      List.any_append, List.map_cons, List.map_nil, List.any_cons, List.any_nil, Bool.or_false,
      List.append_assoc, List.singleton_append]
    by_cases hq : sizeTooSmall contours[k].length m s.relaxContourMerge = true
    · simp [hq, qualifies]
    · simp [hq, qualifies]

theorem markPass_eq (contours : List Contour) (m : Int) (s : MergeVars)
    (hlen : s.contourMergeable.length = contours.length) :
    markPass contours m s =
      { s with
        contourMergeable := contours.map (qualifies m s.relaxContourMerge)
        retryContourMerge :=
          s.retryContourMerge && !contours.any (qualifies m s.relaxContourMerge) } := by
  unfold markPass
  rw [foldl_markStep_range contours m s contours.length (le_refl _) hlen]
  rw [List.take_length, List.drop_eq_nil_of_le (by omega), List.append_nil]

theorem foldl_mergeStep_range (contours : List Contour) (flags : List Bool)
    (hlen : flags.length = contours.length) :
    ∀ k, k ≤ contours.length →
      (List.range k).foldl (mergeStep contours flags) ⟨[], false⟩ =
        { contoursMerged := (mergeableContours (contours.take k) (flags.take k)).flatten
          success := (flags.take k).any id } := by
  intro k
  induction k with
  | zero => intro _; simp [mergeableContours]
  | succ k ih =>
    intro hk
    have hk1 : k < contours.length := hk
    have hk2 : k < flags.length := by omega
    rw [List.range_succ, List.foldl_append, ih (by omega)]
    have htake : contours.take (k + 1) = contours.take k ++ [contours[k]] := by
      rw [← List.take_concat_get contours k hk1, List.concat_eq_append]
    have htake2 : flags.take (k + 1) = flags.take k ++ [flags[k]] := by
      rw [← List.take_concat_get flags k hk2, List.concat_eq_append]
    have hget : contours.getD k [] = contours[k] := by
      simp [List.getD, List.getElem?_eq_getElem hk1]
    have hget2 : flags.getD k false = flags[k] := by
      simp [List.getD, List.getElem?_eq_getElem hk2]
    have hl : (contours.take k).length = (flags.take k).length := by
      simp; omega
    simp only [List.foldl_cons, List.foldl_nil, mergeStep, hget, hget2, htake, htake2,
      mergeableContours, List.zip_append hl, List.filter_append, List.map_append,
      List.flatten_append, List.any_append]
    by_cases hb : flags[k] = true
    · simp [hb]
    · simp [hb]

theorem performMerge_eq (contours : List Contour) (flags : List Bool)
    (hlen : flags.length = contours.length) :
    performMerge contours flags =
      { contoursMerged := (mergeableContours contours flags).flatten
        success := flags.any id } := by
  unfold performMerge
  rw [foldl_mergeStep_range contours flags hlen contours.length (le_refl _)]
  rw [List.take_length, ← hlen, List.take_length]

theorem mergeLoop_of_guard_false (contours : List Contour) (m : Int) (fuel : Nat) (s : MergeVars)
    (h : mergeGuard contours s = false) : mergeLoop contours m fuel s = some s := by
  cases fuel <;> simp [mergeLoop, h]

theorem mergeBody_eq (contours : List Contour) (m : Int) (s : MergeVars)
    (hlen : s.contourMergeable.length = contours.length) :
    mergeBody contours m s =
      { contourMergeable := contours.map (qualifies m s.relaxContourMerge)
        retryContourMerge :=
          s.retryContourMerge && !contours.any (qualifies m s.relaxContourMerge)
        relaxContourMerge := s.relaxContourMerge + 2
        thresholds := s.thresholds ++ [m - s.relaxContourMerge] } := by
  simp only [mergeBody]
  rw [markPass_eq contours m _ (by simpa using hlen)]

theorem mergeLoop_run (contours : List Contour) (m : Int) :
    ∀ (j fuel : Nat) (s : MergeVars),
      mergeGuard contours s = true →
      s.contourMergeable.length = contours.length →
      (∀ i, i < j → contours.any (qualifies m (s.relaxContourMerge + 2 * (i : Int))) = false) →
      contours.any (qualifies m (s.relaxContourMerge + 2 * (j : Int))) = true →
      j + 1 ≤ fuel →
      mergeLoop contours m fuel s = some (mergeExit contours m s j) := by
  intro j
  induction j with
  | zero =>
    intro fuel s hg hlen _ hq hfuel
    obtain ⟨f, rfl⟩ : ∃ f, fuel = f + 1 := ⟨fuel - 1, by omega⟩
    simp only [Nat.cast_zero, mul_zero, add_zero] at hq
    rw [mergeLoop, if_pos hg, mergeBody_eq contours m s hlen, mergeLoop_of_guard_false]
    · simp [mergeExit, hq, List.range_succ]
    · simp [mergeGuard, hq]
  | succ j ih =>
    intro fuel s hg hlen hfail hq hfuel
    obtain ⟨f, rfl⟩ : ∃ f, fuel = f + 1 := ⟨fuel - 1, by omega⟩
    have h0 : contours.any (qualifies m s.relaxContourMerge) = false := by
      simpa using hfail 0 (by omega)
    have hretry : s.retryContourMerge = true := by
      simp only [mergeGuard, Bool.and_eq_true] at hg
      exact hg.1
    have hpos : decide (contours.length > 0) = true := by
      simp only [mergeGuard, Bool.and_eq_true] at hg
      exact hg.2
    rw [mergeLoop, if_pos hg, mergeBody_eq contours m s hlen]
    rw [ih f _ (by simp [mergeGuard, h0, hretry, hpos]) (by simp)
      (by
        intro i hi
        have := hfail (i + 1) (by omega)
        simpa [add_assoc, mul_add, add_comm, add_left_comm] using this)
      (by
        simpa [add_assoc, mul_add, add_comm, add_left_comm] using hq)
      (by omega)]
    simp only [mergeExit, Option.some.injEq, MergeVars.mk.injEq]
    refine ⟨?_, trivial, ?_, ?_⟩
    · have e : s.relaxContourMerge + 2 + 2 * (j : Int) = s.relaxContourMerge + 2 * ((j + 1 : Nat) : Int) := by
        push_cast; omega
      rw [e]
    · push_cast; omega
    · rw [List.append_assoc]
      congr 1
      rw [List.range_succ_eq_map (j + 1)]
      simp only [List.map_cons, List.map_map, List.singleton_append, Nat.cast_zero, mul_zero,
        add_zero]
      congr 1
      apply List.map_congr_left
      intro i _
      simp only [Function.comp, Nat.succ_eq_add_one]
      push_cast; omega

/-! ## The loop for the minimum contour size 80 -/

theorem sizeTooSmall_eq (n : Nat) (m r : Int) (h0 : 0 ≤ m - r) (h1 : m - r < 2 ^ 64) :
    sizeTooSmall n m r = decide ((n : Int) < m - r) := by
  unfold sizeTooSmall toSizeT
  rw [Int.emod_eq_of_lt h0 h1]
  congr 1
  apply propext
  omega

theorem qualifies_80 (j : Nat) (hj : j ≤ 40) (c : Contour) :
    qualifies 80 (0 + 2 * (j : Int)) c = decide ((80 : Int) - 2 * j ≤ c.length) := by
  unfold qualifies
  rw [sizeTooSmall_eq _ _ _ (by omega) (by omega)]
  by_cases h : (c.length : Int) < 80 - (0 + 2 * (j : Int))
  · simp only [h, decide_True, Bool.not_true]
    symm; apply decide_eq_false; omega
  · simp only [h, decide_False, Bool.not_false]
    symm; apply decide_eq_true; omega

theorem mergeGuard_init (contours : List Contour) (hne : contours ≠ []) :
    mergeGuard contours (mergeInit contours) = true := by
  have : 0 < contours.length := List.length_pos.mpr hne
  simp [mergeGuard, mergeInit, this]

theorem mergeLoop_80 (contours : List Contour) (hne : contours ≠ []) (fuel : Nat)
    (hfuel : 41 ≤ fuel) :
    ∃ j : Nat, j ≤ 40 ∧
      (∃ c ∈ contours, (80 : Int) - 2 * j ≤ c.length) ∧
      (∀ i : Nat, i < j → ∀ c ∈ contours, (c.length : Int) < 80 - 2 * i) ∧
      mergeLoop contours 80 fuel (mergeInit contours) =
        some
          { contourMergeable := contours.map (fun c => decide ((80 : Int) - 2 * j ≤ c.length))
            retryContourMerge := false
            relaxContourMerge := 2 * j + 2
            thresholds := (List.range (j + 1)).map (fun (i : Nat) => (80 : Int) - 2 * i) } := by
  have h40 : contours.any (fun c => decide ((80 : Int) - 2 * ((40 : Nat) : Int) ≤ c.length)) = true := by
    obtain ⟨c, hc⟩ := List.exists_mem_of_ne_nil contours hne
    rw [List.any_eq_true]
    exact ⟨c, hc, by simp⟩
  have hex : ∃ j : Nat, contours.any (fun c => decide ((80 : Int) - 2 * (j : Int) ≤ c.length)) = true :=
    ⟨40, h40⟩
  let j := Nat.find hex
  have hj : contours.any (fun c => decide ((80 : Int) - 2 * (j : Int) ≤ c.length)) = true :=
    Nat.find_spec hex
  have hj40 : j ≤ 40 := Nat.find_min' hex h40
  have hmin : ∀ i : Nat, i < j →
      contours.any (fun c => decide ((80 : Int) - 2 * (i : Int) ≤ c.length)) = false := by
    intro i hi
    have := Nat.find_min hex hi
    simpa using this
  have hq : ∀ i : Nat, i ≤ 40 →
      contours.any (qualifies 80 ((mergeInit contours).relaxContourMerge + 2 * (i : Int)))
        = contours.any (fun c => decide ((80 : Int) - 2 * (i : Int) ≤ c.length)) := by
    intro i hi
    congr 1
    funext c
    exact qualifies_80 i hi c
  have hmap : contours.map (qualifies 80 ((mergeInit contours).relaxContourMerge + 2 * (j : Int)))
        = contours.map (fun c => decide ((80 : Int) - 2 * (j : Int) ≤ c.length)) := by
    congr 1
    funext c
    exact qualifies_80 j hj40 c
  refine ⟨j, hj40, ?_, ?_, ?_⟩
  · rw [List.any_eq_true] at hj
    obtain ⟨c, hc, h⟩ := hj
    exact ⟨c, hc, by simpa using h⟩
  · intro i hi c hc
    have h := hmin i hi
    rw [List.any_eq_false] at h
    have := h c hc
    simp only [decide_eq_true_eq] at this
    omega
  · rw [mergeLoop_run contours 80 j fuel (mergeInit contours) (mergeGuard_init contours hne)
      (by simp [mergeInit])
      (by intro i hi; rw [hq i (by omega)]; exact hmin i hi)
      (by rw [hq j hj40]; exact hj)
      (by omega)]
    simp only [mergeExit, hmap]
    simp [mergeInit]


theorem mergeLoop_nil (m : Int) (fuel : Nat) :
    mergeLoop [] m fuel (mergeInit []) = some (mergeInit []) :=
  mergeLoop_of_guard_false [] m fuel _ (by simp [mergeGuard])

theorem findPupil_of_mergeLoop {Mat : Type} (cv : OpenCV Mat) (fuel : Nat) (t : PupilTracker)
    (imageIn : Mat) (mv : MergeVars)
    (h : mergeLoop (contoursOf cv t imageIn) t.m_min_contour_size fuel
      (mergeInit (contoursOf cv t imageIn)) = some mv) :
    ∃ run, findPupil cv fuel t imageIn = some run ∧
      run.lowestSpike = (spikesOf cv imageIn).lowestSpike ∧
      run.highestSpike = (spikesOf cv imageIn).highestSpike ∧
      run.contours = contoursOf cv t imageIn ∧
      run.merge = mv ∧
      run.merged = performMerge (contoursOf cv t imageIn) mv.contourMergeable ∧
      run.fitCalls = (if run.merged.success then [run.merged.contoursMerged] else []) ∧
      run.returned = run.merged.success ∧
      run.tracker.m_bin_thresh = run.lowestSpike := by
  have h1 : mergeLoop (contoursOf cv { t with m_bin_thresh := (spikesOf cv imageIn).lowestSpike } imageIn)
      t.m_min_contour_size fuel
      (mergeInit (contoursOf cv { t with m_bin_thresh := (spikesOf cv imageIn).lowestSpike } imageIn))
        = some mv := h
  unfold findPupil
  simp only [h1]
  split <;> rename_i hs
  · exact ⟨_, rfl, rfl, rfl, rfl, rfl, rfl, by simp [hs], by simp [hs], rfl⟩
  · exact ⟨_, rfl, rfl, rfl, rfl, rfl, rfl, by simp [hs], by simp [hs], rfl⟩

theorem any_id_iff_getD (flags : List Bool) (n : Nat) (hlen : flags.length = n) :
    flags.any id = true ↔ ∃ i, i < n ∧ flags.getD i false = true := by
  rw [List.any_eq_true]
  constructor
  · rintro ⟨b, hb, hid⟩
    obtain ⟨i, hi, rfl⟩ := List.getElem_of_mem hb
    refine ⟨i, by omega, ?_⟩
    simp only [List.getD_eq_getElem?_getD, List.getElem?_eq_getElem hi, Option.getD_some]
    exact hid
  · rintro ⟨i, hi, h⟩
    have hi2 : i < flags.length := by omega
    simp only [List.getD_eq_getElem?_getD, List.getElem?_eq_getElem hi2, Option.getD_some] at h
    exact ⟨flags[i], List.getElem_mem hi2, h⟩

theorem mem_flatten_mergeableContours (contours : List Contour) :
    ∀ (flags : List Bool) (p : Point), p ∈ (mergeableContours contours flags).flatten →
      ∃ (i : Nat) (hi : i < contours.length),
        flags.getD i false = true ∧ p ∈ contours.get ⟨i, hi⟩ := by
  induction contours with
  | nil => intro flags p h; simp [mergeableContours] at h
  | cons c cs ih =>
    intro flags p h
    cases flags with
    | nil => simp [mergeableContours] at h
    | cons b bs =>
      have key : p ∈ (if b = true then c else []) ∨ p ∈ (mergeableContours cs bs).flatten := by
        cases b <;> simpa [mergeableContours, List.filter_cons] using h
      rcases key with h1 | h2
      · cases b
        · simp at h1
        · exact ⟨0, by simp, by simp, by simpa using h1⟩
      · obtain ⟨i, hi, hf, hp⟩ := ih bs p h2
        exact ⟨i + 1, by simp; omega, by simpa using hf, by simpa using hp⟩

/-- What a call of `findPupil` on a tracker with minimum contour size 80 does,
in terms of the number `j` of failed passes of the relaxation loop. -/
theorem findPupil_80 {Mat : Type} (cv : OpenCV Mat) (t : PupilTracker) (imageIn : Mat)
    (fuel : Nat) (hmin : t.m_min_contour_size = 80) (hfuel : 41 ≤ fuel) :
    ∃ run, findPupil cv fuel t imageIn = some run ∧
      run.lowestSpike = (spikesOf cv imageIn).lowestSpike ∧
      run.highestSpike = (spikesOf cv imageIn).highestSpike ∧
      run.contours = contoursOf cv t imageIn ∧
      run.merge.contourMergeable.length = run.contours.length ∧
      run.merged.contoursMerged
        = (mergeableContours run.contours run.merge.contourMergeable).flatten ∧
      run.merged.success = run.merge.contourMergeable.any id ∧
      run.fitCalls = (if run.merged.success then [run.merged.contoursMerged] else []) ∧
      run.returned = run.merged.success ∧
      run.tracker.m_bin_thresh = run.lowestSpike ∧
      (run.contours = [] → run.merge = mergeInit []) ∧
      (run.contours ≠ [] → ∃ j : Nat, j ≤ 40 ∧
        (∃ c ∈ run.contours, (80 : Int) - 2 * j ≤ c.length) ∧
        (∀ i : Nat, i < j → ∀ c ∈ run.contours, (c.length : Int) < 80 - 2 * i) ∧
        run.merge =
          { contourMergeable :=
              run.contours.map (fun c => decide ((80 : Int) - 2 * j ≤ c.length))
            retryContourMerge := false
            relaxContourMerge := 2 * j + 2
            thresholds := (List.range (j + 1)).map (fun (i : Nat) => (80 : Int) - 2 * i) }) := by
  by_cases hne : contoursOf cv t imageIn = []
  · have hloop : mergeLoop (contoursOf cv t imageIn) t.m_min_contour_size fuel
        (mergeInit (contoursOf cv t imageIn)) = some (mergeInit []) := by
      rw [hne]; exact mergeLoop_nil _ _
    obtain ⟨run, hrun, hl, hh, hc, hm, hmg, hf, hr, hb⟩ :=
      findPupil_of_mergeLoop cv fuel t imageIn _ hloop
    have hlen : run.merge.contourMergeable.length = run.contours.length := by
      rw [hm, hc, hne]; simp [mergeInit]
    have hpm := performMerge_eq run.contours run.merge.contourMergeable hlen
    rw [hc, hm, ← hmg] at hpm
    refine ⟨run, hrun, hl, hh, hc, hlen, ?_, ?_, hf, hr, hb, fun _ => hm, ?_⟩
    · rw [hpm, hc, hm]
    · rw [hpm]; simp [hm]
    · intro h; rw [hc] at h; exact absurd hne h
  · obtain ⟨j, hj, hex, hfail, hloop⟩ := mergeLoop_80 (contoursOf cv t imageIn) hne fuel hfuel
    rw [← hmin] at hloop
    obtain ⟨run, hrun, hl, hh, hc, hm, hmg, hf, hr, hb⟩ :=
      findPupil_of_mergeLoop cv fuel t imageIn _ hloop
    have hlen : run.merge.contourMergeable.length = run.contours.length := by
      rw [hm, hc]; simp
    have hpm := performMerge_eq run.contours run.merge.contourMergeable hlen
    have hmg2 : run.merged = performMerge run.contours run.merge.contourMergeable := by
      rw [hmg, hc, hm]
    rw [← hmg2] at hpm
    refine ⟨run, hrun, hl, hh, hc, hlen, ?_, ?_, hf, hr, hb, ?_, ?_⟩
    · rw [hpm]
    · rw [hpm]
    · intro h; rw [hc] at h; exact absurd h hne
    · intro _
      refine ⟨j, hj, ?_, ?_, ?_⟩
      · rw [hc]; exact hex
      · rw [hc]; exact hfail
      · rw [hm, hc, hmin]

theorem mergeableContours_map (f : Contour → Bool) (contours : List Contour) :
    mergeableContours contours (contours.map f) = contours.filter f := by
  induction contours with
  | nil => simp [mergeableContours]
  | cons c cs ih =>
    simp only [mergeableContours] at ih
    by_cases h : f c = true
    · simp [mergeableContours, List.filter_cons, h, ih]
    · simp [mergeableContours, List.filter_cons, h, ih]

theorem length_le_length_flatten (L : List Contour) (c : Contour) (hc : c ∈ L) :
    c.length ≤ L.flatten.length := by
  induction L with
  | nil => simp at hc
  | cons d ds ih =>
    rcases List.mem_cons.mp hc with rfl | h
    · simp
    · have := ih h
      simp only [List.flatten_cons, List.length_append]
      omega

/-! ## Lemmas on the spike scan -/

theorem spikeStep_inRange (histAt : Nat → Nat) (s : SpikeVars) (i : Nat) (hi : i < 256)
    (hs : s.InRange) : (spikeStep histAt s i).InRange := by
  obtain ⟨h1, h2, h3, h4⟩ := hs
  unfold spikeStep SpikeVars.InRange
  by_cases hc : (histAt i : Int) ≥ 40
  · simp only [hc, if_true]
    by_cases ha : (i : Int) < s.lowestSpike
    · by_cases hb : (i : Int) > s.highestSpike
      · simp only [ha, hb, if_true]; omega
      · simp only [ha, hb, if_true, if_false]; omega
    · by_cases hb : (i : Int) > s.highestSpike
      · simp only [ha, hb, if_true, if_false]; omega
      · simp only [ha, hb, if_false]; omega
  · simp only [hc, if_false]
    exact ⟨h1, h2, h3, h4⟩

theorem foldl_spikeStep_inRange (histAt : Nat → Nat) (l : List Nat) :
    ∀ s : SpikeVars, (∀ i ∈ l, i < 256) → s.InRange →
      (l.foldl (spikeStep histAt) s).InRange := by
  induction l with
  | nil => intro s _ hs; exact hs
  | cons i l ih =>
    intro s hl hs
    rw [List.foldl_cons]
    exact ih _ (fun k hk => hl k (List.mem_cons_of_mem _ hk))
      (spikeStep_inRange histAt s i (hl i (List.mem_cons_self _ _)) hs)

theorem findSpikes_inRange (histAt : Nat → Nat) : (findSpikes histAt).InRange := by
  have h : (spikeScan histAt).InRange :=
    foldl_spikeStep_inRange histAt _ _ (fun i hi => List.mem_range.mp hi)
      ⟨by decide, by decide, by decide, by decide⟩
  unfold findSpikes spikeDefaults
  split
  · exact ⟨by simp, by simp, by simp, by simp⟩
  · exact h

theorem foldl_spikeStep_congr (f g : Nat → Nat) (l : List Nat) :
    ∀ s : SpikeVars, (∀ i ∈ l, f i = g i) →
      l.foldl (spikeStep f) s = l.foldl (spikeStep g) s := by
  induction l with
  | nil => intro s _; rfl
  | cons i l ih =>
    intro s h
    have hi : f i = g i := h i (List.mem_cons_self _ _)
    have hstep : spikeStep f s i = spikeStep g s i := by
      unfold spikeStep
      rw [hi]
    rw [List.foldl_cons, List.foldl_cons, hstep]
    exact ih _ (fun k hk => h k (List.mem_cons_of_mem _ hk))

/-- The spike levels depend on the first 64 bins of the histogram only: the
256 bytes that the scan reads are the storage of the bins 0 to 63. -/
theorem findSpikes_histAtUchar_congr (h1 h2 : List F32)
    (h : ∀ k, k < 64 → h1.getD k ⟨0⟩ = h2.getD k ⟨0⟩) :
    findSpikes (histAtUchar h1) = findSpikes (histAtUchar h2) := by
  unfold findSpikes spikeScan
  rw [foldl_spikeStep_congr (histAtUchar h1) (histAtUchar h2)]
  intro i hi
  have hi2 : i < 256 := List.mem_range.mp hi
  unfold histAtUchar
  rw [h (i / 4) (by omega)]

/-! ## Lemmas on the pixel routines -/

theorem calcHistBin_lt_255 (v : Nat) (hv : v < 255) : calcHistBin 256 0 255 v = some v := by
  unfold calcHistBin
  rw [if_pos (by omega)]
  congr 1
  omega

theorem calcHistBin_ge_255 (v : Nat) (hv : 255 ≤ v) : calcHistBin 256 0 255 v = none := by
  unfold calcHistBin
  rw [if_neg (by omega)]

theorem calcHistBin_eq_some_iff (v b : Nat) :
    calcHistBin 256 0 255 v = some b ↔ v < 255 ∧ v = b := by
  by_cases hv : v < 255
  · rw [calcHistBin_lt_255 v hv]
    simp [hv]
  · rw [calcHistBin_ge_255 v (by omega)]
    simp [hv]

/-- Below 255 the bins of the histogram of `findPupil` count the pixels by
intensity. -/
theorem calcHistCounts_getD_lt_255 (img : Gray) (b : Nat) (hb : b < 255) :
    (calcHistCounts img 256 0 255).getD b 0 = countIntensity img b := by
  unfold calcHistCounts countIntensity
  have hb2 : b < (List.range (256 : Int).toNat).length := by simp; omega
  rw [List.getD_eq_getElem?_getD, List.getElem?_map, List.getElem?_range (by simpa using hb2)]
  simp only [Option.map_some', Option.getD_some, List.count]
  apply List.countP_congr
  intro v _
  simp only [beq_iff_eq, calcHistBin_eq_some_iff]
  constructor
  · rintro ⟨_, rfl⟩; rfl
  · intro h; subst h; exact ⟨hb, rfl⟩

/-- Bin 255 of the histogram of `findPupil` is empty for every image: the value
255 is the exclusive upper boundary of the range. -/
theorem calcHistCounts_getD_255 (img : Gray) :
    (calcHistCounts img 256 0 255).getD 255 0 = 0 := by
  unfold calcHistCounts
  rw [List.getD_eq_getElem?_getD, List.getElem?_map,
    List.getElem?_range (by decide : 255 < (256 : Int).toNat)]
  simp only [Option.map_some', Option.getD_some]
  rw [List.countP_eq_zero]
  intro v _
  simp only [beq_iff_eq, calcHistBin_eq_some_iff]
  omega

theorem pixel_inRange (src : Gray) (lowerb upperb : Int) (r c : Nat) :
    pixel (inRange src lowerb upperb) r c =
      (pixel src r c).map
        (fun (v : Nat) => if lowerb ≤ (v : Int) ∧ (v : Int) ≤ upperb then 255 else 0) := by
  unfold pixel inRange
  rw [List.getElem?_map]
  cases src[r]? with
  | none => rfl
  | some row =>
    simp only [Option.map_some', Option.bind_some, Option.some_bind, List.getElem?_map]

theorem getElem?_zipWith_min (ra rb : List Nat) (c : Nat) :
    (List.zipWith Nat.min ra rb)[c]? =
      (ra[c]?).bind (fun x => (rb[c]?).map (fun y => Nat.min x y)) := by
  rw [List.getElem?_zipWith]
  cases h1 : ra[c]? <;> cases h2 : rb[c]? <;> simp

theorem pixel_gridMin (a b : Gray) (r c : Nat) :
    pixel (gridMin a b) r c =
      (pixel a r c).bind (fun x => (pixel b r c).map (fun y => Nat.min x y)) := by
  unfold pixel gridMin
  rw [List.getElem?_zipWith]
  cases h1 : a[r]? with
  | none => simp
  | some ra =>
    cases h2 : b[r]? with
    | none => cases h3 : ra[c]? <;> simp
    | some rb =>
      simp only [Option.some_bind]
      exact getElem?_zipWith_min ra rb c

theorem sum_range_indicator (x : Nat) (p : Prop) [Decidable p] :
    ∀ n : Nat, ((List.range n).map (fun b => if p ∧ x = b then 1 else 0)).sum
      = if p ∧ x < n then 1 else 0 := by
  intro n
  induction n with
  | zero => simp
  | succ n ih =>
    rw [List.range_succ, List.map_append, List.sum_append, ih]
    by_cases hp : p
    · by_cases h1 : x < n
      · have h2 : ¬ x = n := by omega
        have h3 : x < n + 1 := by omega
        simp [hp, h1, h2, h3]
      · by_cases h2 : x = n
        · have h3 : x < n + 1 := by omega
          simp [hp, h1, h2]
        · have h3 : ¬ x < n + 1 := by omega
          simp [hp, h1, h2, h3]
    · simp [hp]

theorem sum_countP_bins (n : Nat) (P : Nat → Prop) [DecidablePred P] (q : Nat → Nat → Bool)
    (hq : ∀ v b, q v b = true ↔ (P v ∧ v = b)) (l : List Nat) :
    ((List.range n).map (fun b => l.countP (fun v => q v b))).sum
      = l.countP (fun v => decide (P v ∧ v < n)) := by
  induction l with
  | nil => simp
  | cons x l ih =>
    have hsplit : ∀ b : Nat,
        (x :: l).countP (fun v => q v b)
          = l.countP (fun v => q v b) + (if P x ∧ x = b then 1 else 0) := by
      intro b
      rw [List.countP_cons]
      congr 1
      by_cases h : P x ∧ x = b
      · rw [if_pos h, if_pos ((hq x b).mpr h)]
      · rw [if_neg h, if_neg (fun hc => h ((hq x b).mp hc))]
    simp only [hsplit]
    rw [List.sum_map_add, ih, sum_range_indicator x (P x) n, List.countP_cons]
    congr 1
    by_cases h : P x ∧ x < n
    · rw [if_pos h, if_pos (by simpa using h)]
    · rw [if_neg h, if_neg (by simpa using h)]

/-- The bins of the histogram of `findPupil` sum to the number of pixels of
intensity below 255. -/
theorem calcHistCounts_sum (img : Gray) :
    (calcHistCounts img 256 0 255).sum = img.flatten.countP (fun v => decide (v < 255)) := by
  unfold calcHistCounts
  rw [show (256 : Int).toNat = 256 from rfl,
    sum_countP_bins 256 (fun v => v < 255)
      (fun v b => calcHistBin 256 0 255 v == some b)
      (fun v b => by simp only [beq_iff_eq]; exact calcHistBin_eq_some_iff v b)]
  apply List.countP_congr
  intro v _
  simp only [decide_eq_true_eq]
  omega

theorem pixel_binary (a : Gray) (ha : Binary a) (r c v : Nat) (h : pixel a r c = some v) :
    v = 0 ∨ v = 255 := by
  unfold pixel at h
  cases hr : a[r]? with
  | none => rw [hr] at h; simp at h
  | some row =>
    rw [hr] at h
    simp only [Option.some_bind] at h
    exact ha row (List.getElem?_mem hr) v (List.getElem?_mem h)

theorem pixel_isSome_of_sameSize (a b : Gray) (h : SameSize a b) (r c : Nat) :
    (pixel a r c).isSome = (pixel b r c).isSome := by
  have hr : (a[r]?).map List.length = (b[r]?).map List.length := by
    rw [← List.getElem?_map, ← List.getElem?_map]
    exact congrArg (fun l => l[r]?) h
  unfold pixel
  cases ha : a[r]? with
  | none =>
    cases hb : b[r]? with
    | none => rfl
    | some rb => rw [ha, hb] at hr; simp at hr
  | some ra =>
    cases hb : b[r]? with
    | none => rw [ha, hb] at hr; simp at hr
    | some rb =>
      rw [ha, hb] at hr
      simp only [Option.map_some', Option.some.injEq] at hr
      simp only [Option.some_bind]
      by_cases hc : c < ra.length
      · rw [List.getElem?_eq_getElem hc, List.getElem?_eq_getElem (by omega)]
        rfl
      · rw [List.getElem?_eq_none (by omega), List.getElem?_eq_none (by omega)]

/-- The pruned edge map of binary images of one size: 255 where all three images
are 255, and 0 at every other position. -/
theorem pixel_pruned (edges darkMask glintMask : Gray)
    (hd : SameSize edges darkMask) (hg : SameSize edges glintMask)
    (he : Binary edges) (hdb : Binary darkMask) (hgb : Binary glintMask) (r c : Nat) :
    pixel (gridMin (gridMin edges darkMask) glintMask) r c =
      (pixel edges r c).map (fun _ =>
        if pixel edges r c = some 255 ∧ pixel darkMask r c = some 255 ∧
            pixel glintMask r c = some 255 then 255 else 0) := by
  rw [pixel_gridMin, pixel_gridMin]
  have h1 := pixel_isSome_of_sameSize edges darkMask hd r c
  have h2 := pixel_isSome_of_sameSize edges glintMask hg r c
  cases hx : pixel edges r c with
  | none => simp
  | some x =>
    rw [hx] at h1 h2
    cases hy : pixel darkMask r c with
    | none => rw [hy] at h1; simp at h1
    | some y =>
      cases hz : pixel glintMask r c with
      | none => rw [hz] at h2; simp at h2
      | some z =>
        rcases pixel_binary edges he r c x hx with rfl | rfl <;>
        rcases pixel_binary darkMask hdb r c y hy with rfl | rfl <;>
        rcases pixel_binary glintMask hgb r c z hz with rfl | rfl <;>
        simp

/-! ## Lemmas on the state of the object -/

/-- The state in which a call of `findPupil` that returns leaves the object. -/
theorem findPupil_tracker {Mat : Type} (cv : OpenCV Mat) (fuel : Nat) (t : PupilTracker)
    (imageIn : Mat) (run : FindPupilRun Mat) (h : findPupil cv fuel t imageIn = some run) :
    run.returned = run.merged.success ∧
    run.lowestSpike = (spikesOf cv imageIn).lowestSpike ∧
    run.fitCalls = (if run.returned then [run.merged.contoursMerged] else []) ∧
    run.tracker =
      { t with
        m_bin_thresh := (spikesOf cv imageIn).lowestSpike
        m_ellipseRectangle :=
          if run.returned then cv.fitEllipse run.merged.contoursMerged
          else t.m_ellipseRectangle } := by
  cases hm : mergeLoop
      (contoursOf cv { t with m_bin_thresh := (spikesOf cv imageIn).lowestSpike } imageIn)
      t.m_min_contour_size fuel
      (mergeInit
        (contoursOf cv { t with m_bin_thresh := (spikesOf cv imageIn).lowestSpike } imageIn)) with
  | none =>
    unfold findPupil at h
    simp only [hm] at h
    exact absurd h (by simp)
  | some mv =>
    unfold findPupil at h
    simp only [hm] at h
    split at h
    · rename_i hs
      simp only [Option.some.injEq] at h
      subst h
      simp [hs]
    · rename_i hs
      simp only [Option.some.injEq] at h
      subst h
      simp [hs]

/-- The outcome of a call depends on the object through its configuration only. -/
theorem findPupil_outcome_congr {Mat : Type} (cv : OpenCV Mat) (fuel : Nat)
    (t1 t2 : PupilTracker) (imageIn : Mat) (h : configOf t1 = configOf t2) :
    (findPupil cv fuel t1 imageIn).map outcomeOf = (findPupil cv fuel t2 imageIn).map outcomeOf := by
  obtain ⟨e1, bl1, ct1, cr1, ca1, b1, po1, go1, mn1, c1, d1⟩ := t1
  obtain ⟨e2, bl2, ct2, cr2, ca2, b2, po2, go2, mn2, c2, d2⟩ := t2
  simp only [configOf, TrackerConfig.mk.injEq] at h
  obtain ⟨rfl, rfl, rfl, rfl, rfl, rfl, rfl⟩ := h
  have hc : contoursOf cv
        ⟨e1, bl1, ct1, cr1, ca1, (spikesOf cv imageIn).lowestSpike, po1, go1, mn1, c1, d1⟩ imageIn
      = contoursOf cv
        ⟨e2, bl1, ct1, cr1, ca1, (spikesOf cv imageIn).lowestSpike, po1, go1, mn1, c2, d2⟩ imageIn :=
    rfl
  simp only [findPupil, hc]
  cases mergeLoop
      (contoursOf cv
        ⟨e2, bl1, ct1, cr1, ca1, (spikesOf cv imageIn).lowestSpike, po1, go1, mn1, c2, d2⟩ imageIn)
      mn1 fuel
      (mergeInit
        (contoursOf cv
          ⟨e2, bl1, ct1, cr1, ca1, (spikesOf cv imageIn).lowestSpike, po1, go1, mn1, c2, d2⟩
          imageIn)) with
  | none => rfl
  | some mv =>
    simp only []
    split <;> simp [outcomeOf]

theorem spikeStep_inv (histAt : Nat → Nat) (s : SpikeVars) (k : Nat) (hk : k ≤ 255)
    (h0 : 0 ≤ s.numSpikes)
    (h1 : s.numSpikes = 0 → s.lowestSpike = 255 ∧ s.highestSpike = 0)
    (h2 : 1 ≤ s.numSpikes →
      0 ≤ s.lowestSpike ∧ s.lowestSpike ≤ s.highestSpike ∧ s.highestSpike < k)
    (h3 : 2 ≤ s.numSpikes → s.lowestSpike < s.highestSpike) :
    0 ≤ (spikeStep histAt s k).numSpikes ∧
    ((spikeStep histAt s k).numSpikes = 0 →
      (spikeStep histAt s k).lowestSpike = 255 ∧ (spikeStep histAt s k).highestSpike = 0) ∧
    (1 ≤ (spikeStep histAt s k).numSpikes →
      0 ≤ (spikeStep histAt s k).lowestSpike ∧
      (spikeStep histAt s k).lowestSpike ≤ (spikeStep histAt s k).highestSpike ∧
      (spikeStep histAt s k).highestSpike < (k + 1 : Nat)) ∧
    (2 ≤ (spikeStep histAt s k).numSpikes →
      (spikeStep histAt s k).lowestSpike < (spikeStep histAt s k).highestSpike) := by
  unfold spikeStep
  by_cases hc : (histAt k : Int) ≥ 40
  · simp only [hc, if_true]
    by_cases hn : s.numSpikes = 0
    · obtain ⟨hl, hh⟩ := h1 hn
      by_cases ha : (k : Int) < s.lowestSpike
      · by_cases hb : (k : Int) > s.highestSpike
        · simp only [ha, hb, if_true]; push_cast; omega
        · simp only [ha, hb, if_true, if_false]; push_cast; omega
      · by_cases hb : (k : Int) > s.highestSpike
        · simp only [ha, hb, if_true, if_false]; push_cast; omega
        · simp only [ha, hb, if_false]; push_cast; omega
    · have hn1 : 1 ≤ s.numSpikes := by omega
      obtain ⟨hl0, hlh, hhk⟩ := h2 hn1
      have ha : ¬ (k : Int) < s.lowestSpike := by omega
      have hb : (k : Int) > s.highestSpike := by omega
      simp only [ha, hb, if_true, if_false]; push_cast; omega
  · simp only [hc, if_false]
    refine ⟨h0, h1, fun h => ?_, h3⟩
    obtain ⟨a, b, c⟩ := h2 h
    exact ⟨a, b, by push_cast; omega⟩

theorem foldl_spikeStep_inv (histAt : Nat → Nat) :
    ∀ n : Nat, n ≤ 256 →
      0 ≤ ((List.range n).foldl (spikeStep histAt) ⟨255, 0, 0⟩).numSpikes ∧
      (((List.range n).foldl (spikeStep histAt) ⟨255, 0, 0⟩).numSpikes = 0 →
        ((List.range n).foldl (spikeStep histAt) ⟨255, 0, 0⟩).lowestSpike = 255 ∧
        ((List.range n).foldl (spikeStep histAt) ⟨255, 0, 0⟩).highestSpike = 0) ∧
      (1 ≤ ((List.range n).foldl (spikeStep histAt) ⟨255, 0, 0⟩).numSpikes →
        0 ≤ ((List.range n).foldl (spikeStep histAt) ⟨255, 0, 0⟩).lowestSpike ∧
        ((List.range n).foldl (spikeStep histAt) ⟨255, 0, 0⟩).lowestSpike
          ≤ ((List.range n).foldl (spikeStep histAt) ⟨255, 0, 0⟩).highestSpike ∧
        ((List.range n).foldl (spikeStep histAt) ⟨255, 0, 0⟩).highestSpike < (n : Nat)) ∧
      (2 ≤ ((List.range n).foldl (spikeStep histAt) ⟨255, 0, 0⟩).numSpikes →
        ((List.range n).foldl (spikeStep histAt) ⟨255, 0, 0⟩).lowestSpike
          < ((List.range n).foldl (spikeStep histAt) ⟨255, 0, 0⟩).highestSpike) := by
  intro n
  induction n with
  | zero =>
    intro _
    simp
  | succ n ih =>
    intro hn
    obtain ⟨h0, h1, h2, h3⟩ := ih (by omega)
    rw [List.range_succ, List.foldl_append, List.foldl_cons, List.foldl_nil]
    exact spikeStep_inv histAt _ n (by omega) h0 h1 h2 h3

/-- Whatever the histogram read returns, the levels that the spike analysis
yields are strictly ordered: either the scan has counted at least two spikes,
at two different indices, or the defaults 0 and 255 are assigned. -/
theorem findSpikes_lt (histAt : Nat → Nat) :
    (findSpikes histAt).lowestSpike < (findSpikes histAt).highestSpike ∧
    ((spikeScan histAt).numSpikes < 2 →
      (findSpikes histAt).lowestSpike = 0 ∧ (findSpikes histAt).highestSpike = 255) ∧
    (2 ≤ (spikeScan histAt).numSpikes → findSpikes histAt = spikeScan histAt) := by
  obtain ⟨_, _, _, h3⟩ := foldl_spikeStep_inv histAt 256 (le_refl _)
  have h3' : 2 ≤ (spikeScan histAt).numSpikes →
      (spikeScan histAt).lowestSpike < (spikeScan histAt).highestSpike := h3
  refine ⟨?_, ?_, ?_⟩
  · unfold findSpikes spikeDefaults
    by_cases hn : (spikeScan histAt).numSpikes < 2
    · rw [if_pos hn]; show (0 : Int) < 255; decide
    · rw [if_neg hn]; exact h3' (by omega)
  · intro hn
    unfold findSpikes spikeDefaults
    rw [if_pos hn]
    exact ⟨rfl, rfl⟩
  · intro hn
    unfold findSpikes spikeDefaults
    rw [if_neg (by omega)]

/-! ## Lemmas on the morphology -/

theorem le_foldl_max (l : List Nat) : ∀ (a v : Nat), (v ∈ l ∨ v ≤ a) → v ≤ l.foldl Nat.max a := by
  induction l with
  | nil =>
    intro a v h
    rcases h with h | h
    · simp at h
    · simpa using h
  | cons x l ih =>
    intro a v h
    rw [List.foldl_cons]
    apply ih
    rcases h with h | h
    · rcases List.mem_cons.mp h with rfl | h
      · right; exact Nat.le_max_right _ _
      · left; exact h
    · right; exact le_trans h (Nat.le_max_left _ _)

theorem foldl_min_le (l : List Nat) : ∀ (a v : Nat), (v ∈ l ∨ a ≤ v) → l.foldl Nat.min a ≤ v := by
  induction l with
  | nil =>
    intro a v h
    rcases h with h | h
    · simp at h
    · simpa using h
  | cons x l ih =>
    intro a v h
    rw [List.foldl_cons]
    apply ih
    rcases h with h | h
    · rcases List.mem_cons.mp h with rfl | h
      · right; exact Nat.min_le_right _ _
      · left; exact h
    · right; exact le_trans (Nat.min_le_left _ _) h

theorem pixel_map_range (src : Gray) (f : Nat → Nat → Nat) (r c : Nat) :
    pixel
        ((List.range src.length).map (fun r =>
          (List.range (src.getD r []).length).map (fun c => f r c))) r c
      = (pixel src r c).map (fun _ => f r c) := by
  unfold pixel
  rw [List.getElem?_map]
  by_cases hr : r < src.length
  · rw [List.getElem?_range hr, List.getElem?_eq_getElem hr]
    have hget : src.getD r [] = src[r] := by
      simp [List.getD_eq_getElem?_getD, List.getElem?_eq_getElem hr]
    simp only [Option.map_some', Option.some_bind, hget, List.getElem?_map]
    by_cases hc : c < src[r].length
    · rw [List.getElem?_range hc, List.getElem?_eq_getElem hc]
      rfl
    · rw [List.getElem?_eq_none (by simpa using hc), List.getElem?_eq_none (by omega)]
      rfl
  · rw [List.getElem?_eq_none (by simpa using hr), List.getElem?_eq_none (by omega)]
    rfl

theorem mem_neighbours_self (kernel src : Gray) (r c v : Nat)
    (hk : ((0 : Int), (0 : Int)) ∈ kernelOffsets kernel) (hv : pixel src r c = some v) :
    v ∈ neighbours kernel src r c := by
  unfold neighbours
  rw [List.mem_filterMap]
  refine ⟨(0, 0), hk, ?_⟩
  simp [pixelAt, hv]

/-- Dilation with a structuring element that contains its anchor only adds
pixels to a mask. -/
theorem selected_dilateOnce (kernel src : Gray) (r c : Nat)
    (hk : ((0 : Int), (0 : Int)) ∈ kernelOffsets kernel) (h : Selected src r c) :
    Selected (dilateOnce kernel src) r c := by
  obtain ⟨v, hv, hne⟩ := h
  have hle := le_foldl_max (neighbours kernel src r c) 0 v
    (Or.inl (mem_neighbours_self kernel src r c v hk hv))
  refine ⟨(neighbours kernel src r c).foldl Nat.max 0, ?_, by omega⟩
  unfold dilateOnce
  rw [pixel_map_range src (fun r c => (neighbours kernel src r c).foldl Nat.max 0), hv]
  rfl

/-- Erosion with a structuring element that contains its anchor only removes
pixels from a mask. -/
theorem selected_of_erodeOnce (kernel src : Gray) (r c : Nat)
    (hk : ((0 : Int), (0 : Int)) ∈ kernelOffsets kernel)
    (h : Selected (erodeOnce kernel src) r c) : Selected src r c := by
  obtain ⟨w, hw, hne⟩ := h
  unfold erodeOnce at hw
  rw [pixel_map_range src (fun r c => (neighbours kernel src r c).foldl Nat.min 255)] at hw
  rcases hv : pixel src r c with _ | v
  · rw [hv] at hw; simp at hw
  · rw [hv] at hw
    simp only [Option.map_some', Option.some.injEq] at hw
    have hle := foldl_min_le (neighbours kernel src r c) 255 v
      (Or.inl (mem_neighbours_self kernel src r c v hk hv))
    exact ⟨v, hv, by omega⟩

theorem centre_mem_kernelOffsets :
    ((0 : Int), (0 : Int)) ∈ kernelOffsets (getStructuringElement 7 7) := by
  decide

theorem selected_inRange_iff (src : Gray) (lowerb upperb : Int) (r c : Nat) :
    Selected (inRange src lowerb upperb) r c ↔
      ∃ v, pixel src r c = some v ∧ lowerb ≤ (v : Int) ∧ (v : Int) ≤ upperb := by
  unfold Selected
  rw [pixel_inRange]
  cases h : pixel src r c with
  | none => simp
  | some v =>
    by_cases hb : lowerb ≤ (v : Int) ∧ (v : Int) ≤ upperb
    · simp [hb]
    · simp only [Option.map_some', if_neg hb, Option.some.injEq]
      constructor
      · rintro ⟨w, rfl, hw⟩; exact absurd rfl hw
      · rintro ⟨w, hw, h1, h2⟩
        exact absurd ⟨hw ▸ h1, hw ▸ h2⟩ hb

/-! ## Lemmas on blank images and on the sample frames -/

theorem isBlank_iff (g : Gray) : isBlank g = true ↔ ∀ row ∈ g, ∀ v ∈ row, v = 0 := by
  unfold isBlank
  rw [List.all_eq_true]
  constructor
  · intro h row hrow v hv
    have := h v (List.mem_flatten.mpr ⟨row, hrow, hv⟩)
    simpa using this
  · intro h v hv
    obtain ⟨row, hrow, hvr⟩ := List.mem_flatten.mp hv
    simpa using h row hrow v hvr

theorem isBlank_inRange_neg (src : Gray) (upperb : Int) (h : upperb < 0) :
    isBlank (inRange src 0 upperb) = true := by
  rw [isBlank_iff]
  intro row hrow v hv
  unfold inRange at hrow
  rw [List.mem_map] at hrow
  obtain ⟨row0, _, rfl⟩ := hrow
  rw [List.mem_map] at hv
  obtain ⟨x, _, rfl⟩ := hv
  rw [if_neg]
  omega

theorem mem_zipWith_imp {α β γ : Type} (f : α → β → γ) :
    ∀ (l1 : List α) (l2 : List β) (z : γ), z ∈ List.zipWith f l1 l2 →
      ∃ x ∈ l1, ∃ y ∈ l2, z = f x y := by
  intro l1
  induction l1 with
  | nil => intro l2 z h; simp at h
  | cons a l1 ih =>
    intro l2 z h
    cases l2 with
    | nil => simp at h
    | cons b l2 =>
      rw [List.zipWith_cons_cons, List.mem_cons] at h
      rcases h with rfl | h
      · exact ⟨a, List.mem_cons_self _ _, b, List.mem_cons_self _ _, rfl⟩
      · obtain ⟨x, hx, y, hy, hz⟩ := ih l2 z h
        exact ⟨x, List.mem_cons_of_mem _ hx, y, List.mem_cons_of_mem _ hy, hz⟩

theorem isBlank_gridMin_right (a b : Gray) (h : isBlank b = true) :
    isBlank (gridMin a b) = true := by
  rw [isBlank_iff] at h ⊢
  intro row hrow v hv
  unfold gridMin at hrow
  obtain ⟨ra, _, rb, hrb, rfl⟩ := mem_zipWith_imp _ a b row hrow
  obtain ⟨x, _, y, hy, rfl⟩ := mem_zipWith_imp _ ra rb v hv
  rw [h rb hrb y hy]
  exact Nat.min_zero _

theorem isBlank_erodeOnce (kernel src : Gray)
    (hk : ((0 : Int), (0 : Int)) ∈ kernelOffsets kernel) (h : isBlank src = true) :
    isBlank (erodeOnce kernel src) = true := by
  rw [isBlank_iff] at h ⊢
  intro row hrow v hv
  unfold erodeOnce at hrow
  rw [List.mem_map] at hrow
  obtain ⟨r, hr, rfl⟩ := hrow
  rw [List.mem_map] at hv
  obtain ⟨c, hc, rfl⟩ := hv
  rw [List.mem_range] at hr hc
  have hget : src.getD r [] = src[r] := by
    simp [List.getD_eq_getElem?_getD, List.getElem?_eq_getElem hr]
  rw [hget] at hc
  have hpix : pixel src r c = some (src[r][c]) := by
    simp [pixel, List.getElem?_eq_getElem hr, List.getElem?_eq_getElem hc]
  have h0 : src[r][c] = 0 := h _ (List.getElem_mem _) _ (List.getElem_mem _)
  have := foldl_min_le (neighbours kernel src r c) 255 (src[r][c])
    (Or.inl (mem_neighbours_self kernel src r c _ hk hpix))
  omega

/-- A call on a frame whose pruned edge map yields no contour. -/
theorem findPupil_of_no_contours {Mat : Type} (cv : OpenCV Mat) (fuel : Nat) (t : PupilTracker)
    (imageIn : Mat) (hnil : contoursOf cv t imageIn = []) :
    ∃ run : FindPupilRun Mat,
      findPupil cv fuel t imageIn = some run ∧
      run.lowestSpike = (spikesOf cv imageIn).lowestSpike ∧
      run.highestSpike = (spikesOf cv imageIn).highestSpike ∧
      run.contours = [] ∧
      run.merge.passes = 0 ∧
      run.fitCalls = [] ∧
      run.returned = false := by
  have hloop : mergeLoop (contoursOf cv t imageIn) t.m_min_contour_size fuel
      (mergeInit (contoursOf cv t imageIn)) = some (mergeInit []) := by
    rw [hnil]; exact mergeLoop_nil _ _
  obtain ⟨run, hrun, hl, hh, hc, hm, hmg, hf, hr, _⟩ :=
    findPupil_of_mergeLoop cv fuel t imageIn _ hloop
  have hs : run.merged.success = false := by
    rw [hmg, hnil]; rfl
  refine ⟨run, hrun, hl, hh, by rw [hc, hnil], by rw [hm]; rfl, ?_, by rw [hr, hs]⟩
  rw [hf, hs]; rfl

/-- On a frame given by its grayscale image, a light-mask bound below 0 leaves
no contour: the selection is blank, so are its erosion and the pruned edge
map. -/
theorem contoursOf_frameOps_of_neg (cv : OpenCV Gray) (t : PupilTracker) (imageIn : Gray)
    (h : (spikesOf (frameOps cv) imageIn).highestSpike - t.m_glintIntensityOffset < 0) :
    contoursOf (frameOps cv) t imageIn = [] := by
  have hg : glintMaskOf (frameOps cv) t imageIn
      = erodeOnce (getStructuringElement 7 7)
          (inRange (imageGrayOf (frameOps cv) imageIn) 0
            ((spikesOf (frameOps cv) imageIn).highestSpike - t.m_glintIntensityOffset)) := rfl
  have hb : isBlank (glintMaskOf (frameOps cv) t imageIn) = true := by
    rw [hg]
    exact isBlank_erodeOnce _ _ centre_mem_kernelOffsets (isBlank_inRange_neg _ _ h)
  have hp : edgesPrunedOf (frameOps cv) t imageIn
      = gridMin (gridMin (edgesOf (frameOps cv) t imageIn) (darkMaskOf (frameOps cv) t imageIn))
          (glintMaskOf (frameOps cv) t imageIn) := rfl
  have hpb : isBlank (edgesPrunedOf (frameOps cv) t imageIn) = true := by
    rw [hp]; exact isBlank_gridMin_right _ _ hb
  show (if isBlank (edgesPrunedOf (frameOps cv) t imageIn) then []
    else cv.findContours (edgesPrunedOf (frameOps cv) t imageIn)) = []
  rw [if_pos hpb]

theorem getD_histOfCounts (counts : List Nat) (k : Nat) :
    (histOfCounts counts).getD k ⟨0⟩ = F32.ofNat (counts.getD k 0) := by
  unfold histOfCounts
  rw [List.getD_eq_getElem?_getD, List.getD_eq_getElem?_getD, List.getElem?_map]
  cases counts[k]? <;> rfl

/-- The spike levels of a frame given by its grayscale image, when among the
intensities 0 to 63 only 0 occurs, `n` times: the scan reads the storage of
the float `n` and of 63 zeros. -/
theorem spikesOf_frameOps (cv : OpenCV Gray) (imageIn : Gray) (n : Nat)
    (h0 : countIntensity imageIn 0 = n)
    (h1 : ∀ k, 1 ≤ k → k < 64 → countIntensity imageIn k = 0) :
    spikesOf (frameOps cv) imageIn = findSpikes (histAtUchar [F32.ofNat n]) := by
  have hs : spikesOf (frameOps cv) imageIn
      = findSpikes (histAtUchar (histOfCounts (calcHistCounts imageIn 256 0 255))) := rfl
  rw [hs]
  apply findSpikes_histAtUchar_congr
  intro k hk
  rw [getD_histOfCounts, calcHistCounts_getD_lt_255 imageIn k (by omega)]
  by_cases hk0 : k = 0
  · subst hk0; rw [h0]; rfl
  · rw [h1 k (by omega) hk]
    have : ([F32.ofNat n] : List F32).getD k ⟨0⟩ = ⟨0⟩ := by
      cases k with
      | zero => exact absurd rfl hk0
      | succ k => simp
    rw [this]; rfl

theorem countIntensity_blankFrame (rows cols k : Nat) :
    countIntensity (blankFrame rows cols) k = if k = 0 then rows * cols else 0 := by
  unfold countIntensity blankFrame
  induction rows with
  | zero => simp
  | succ n ih =>
    rw [List.replicate_succ, List.flatten_cons, List.count_append, ih, List.count_replicate]
    by_cases hk : k = 0
    · subst hk; simp; ring
    · have : ¬ (0 == k) = true := by simpa using fun h => hk h.symm
      simp [hk, this]

/-- The flag `success` of a call with minimum contour size 80: it is set exactly
when there is a contour. -/
theorem success_iff_contours {Mat : Type} (cv : OpenCV Mat) (t : PupilTracker) (imageIn : Mat)
    (fuel : Nat) (hmin : t.m_min_contour_size = 80) (hfuel : 41 ≤ fuel) :
    ∃ run : FindPupilRun Mat,
      findPupil cv fuel t imageIn = some run ∧
      run.contours = contoursOf cv t imageIn ∧
      run.fitCalls = (if run.merged.success then [run.merged.contoursMerged] else []) ∧
      run.returned = run.merged.success ∧
      (run.contours = [] → run.merged.success = false) ∧
      (run.contours ≠ [] → run.merged.success = true) := by
  obtain ⟨run, hrun, _, _, hc, _, _, hs, hf, hr, _, hnil, hcons⟩ :=
    findPupil_80 cv t imageIn fuel hmin hfuel
  refine ⟨run, hrun, hc, hf, hr, ?_, ?_⟩
  · intro h
    rw [hs, hnil h]; simp [mergeInit]
  · intro hne
    obtain ⟨j, _, ⟨c0, hc0, hq0⟩, _, hm⟩ := hcons hne
    rw [hs, hm, List.any_eq_true]
    exact ⟨true, by simp only [List.mem_map, decide_eq_true_eq]; exact ⟨c0, hc0, hq0⟩, rfl⟩

/-- How the call ends, from the run of the body: `false` is returned when
`success` is not set; when it is set, `cv::fitEllipse` is called on the merged
points and either accepts them, and `true` is returned, or raises its error. -/
theorem findPupilEnd_of_run {Mat : Type} (cv : OpenCV Mat) (channels : Nat) (fuel : Nat)
    (t : PupilTracker) (imageIn : Mat) (run : FindPupilRun Mat)
    (hch : cvtColorAccepts channels = true)
    (hrun : findPupil cv fuel t imageIn = some run)
    (hf : run.fitCalls = (if run.merged.success then [run.merged.contoursMerged] else []))
    (hr : run.returned = run.merged.success) :
    ∃ e : CallEnd, findPupilEnd cv channels fuel t imageIn = some e ∧
      (run.merged.success = false → e = CallEnd.returned false) ∧
      (run.merged.success = true → 5 ≤ run.merged.contoursMerged.length →
        e = CallEnd.returned true) ∧
      (run.merged.success = true → run.merged.contoursMerged.length < 5 →
        e = CallEnd.fitEllipseError) := by
  refine ⟨(if run.fitCalls.all fitEllipseAccepts then CallEnd.returned run.returned
    else CallEnd.fitEllipseError), ?_, ?_, ?_, ?_⟩
  · unfold findPupilEnd
    rw [if_pos hch, hrun]
    rfl
  · intro hs
    rw [hs] at hf hr
    simp [hf, hr]
  · intro hs h5
    rw [hs] at hf hr
    simp [hf, hr, fitEllipseAccepts, h5]
  · intro hs h5
    rw [hs] at hf hr
    simp [hf, hr, fitEllipseAccepts, h5]

/-- Contours of a single point each have as many points together as there are
contours. -/
theorem length_flatten_of_single (contours : List Contour)
    (hone : ∀ c ∈ contours, c.length = 1) : contours.flatten.length = contours.length := by
  induction contours with
  | nil => rfl
  | cons c cs ih =>
    rw [List.flatten_cons, List.length_append, List.length_cons,
      hone c (List.mem_cons_self _ _), ih (fun d hd => hone d (List.mem_cons_of_mem _ hd))]
    omega

/-! ## Lemmas on the colour detector -/

/-- The six checks of `labelColor` are one pass over `refErrors`. -/
theorem labelColor_eq_foldl {F : Type} [LinearOrder F] [Add F] [Sub F] [Mul F] [OfScientific F]
    (avg_b avg_g avg_r : F) :
    labelColor avg_b avg_g avg_r =
      ((refErrors avg_b avg_g avg_r).foldl
        (fun (s : FitVars F) (p : F × Char) => checkFitness s p.1 p.2)
        ({ minError := 3.0, bestFit := 'x' } : FitVars F)).bestFit := rfl

/-- A pass of fitness checks over a list of (error, label) pairs either leaves the
variables as they were, when no error is below the initial `minError`, or
leaves the first pair of least error. -/
theorem foldl_checkFitness {F : Type} [LinearOrder F] (l : List (F × Char)) :
    ∀ s : FitVars F,
      (l.foldl (fun (s : FitVars F) (p : F × Char) => checkFitness s p.1 p.2) s = s ∧ ∀ q ∈ l, s.minError ≤ q.1) ∨
      (∃ (i : Nat) (p : F × Char), l[i]? = some p ∧
        l.foldl (fun (s : FitVars F) (p : F × Char) => checkFitness s p.1 p.2) s =
          { minError := p.1, bestFit := p.2 } ∧
        p.1 < s.minError ∧ (∀ q ∈ l, p.1 ≤ q.1) ∧
        ∀ (j : Nat) (q : F × Char), j < i → l[j]? = some q → p.1 < q.1) := by
  induction l with
  | nil => intro s; left; exact ⟨rfl, by simp⟩
  | cons a l ih =>
    intro s
    rw [List.foldl_cons]
    by_cases ha : a.1 < s.minError
    · have hs : checkFitness s a.1 a.2 = { minError := a.1, bestFit := a.2 } := by
        unfold checkFitness; rw [if_pos ha]
      rw [hs]
      right
      rcases ih { minError := a.1, bestFit := a.2 } with ⟨ht, hall⟩ | ⟨i, p, hp, ht, hlt, hmin, hfirst⟩
      · refine ⟨0, a, by simp, ht, ha, ?_, ?_⟩
        · intro q hq
          rcases List.mem_cons.mp hq with rfl | hq
          · exact le_refl _
          · exact hall q hq
        · intro j q hj; omega
      · refine ⟨i + 1, p, by simpa using hp, ht, lt_trans hlt ha, ?_, ?_⟩
        · intro q hq
          rcases List.mem_cons.mp hq with rfl | hq
          · exact le_of_lt hlt
          · exact hmin q hq
        · intro j q hj hq
          cases j with
          | zero =>
            have : a = q := by simpa using hq
            rw [← this]; exact hlt
          | succ j => exact hfirst j q (by omega) (by simpa using hq)
    · have hs : checkFitness s a.1 a.2 = s := by
        unfold checkFitness; rw [if_neg ha]
      rw [hs]
      rcases ih s with ⟨ht, hall⟩ | ⟨i, p, hp, ht, hlt, hmin, hfirst⟩
      · left
        refine ⟨ht, ?_⟩
        intro q hq
        rcases List.mem_cons.mp hq with rfl | hq
        · exact not_lt.mp ha
        · exact hall q hq
      · right
        refine ⟨i + 1, p, by simpa using hp, ht, hlt, ?_, ?_⟩
        · intro q hq
          rcases List.mem_cons.mp hq with rfl | hq
          · exact le_of_lt (lt_of_lt_of_le hlt (not_lt.mp ha))
          · exact hmin q hq
        · intro j q hj hq
          cases j with
          | zero =>
            have : a = q := by simpa using hq
            rw [← this]; exact lt_of_lt_of_le hlt (not_lt.mp ha)
          | succ j => exact hfirst j q (by omega) (by simpa using hq)

/-- No label of a reference colour is the character `'x'`. -/
theorem refErrors_label_ne {F : Type} [Add F] [Sub F] [Mul F] [OfScientific F]
    (avg_b avg_g avg_r : F) (p : F × Char) (hp : p ∈ refErrors avg_b avg_g avg_r) :
    p.2 ≠ 'x' := by
  unfold refErrors at hp
  simp only [List.mem_cons, List.mem_singleton, List.not_mem_nil, or_false] at hp
  rcases hp with rfl | rfl | rfl | rfl | rfl | rfl <;> simp

/-- Sample values of `labelColor` over the rationals. -/
theorem labelColor_samples :
    labelColor (0.4 : ℚ) 0.5 1.8 = 'r' ∧ labelColor (5 : ℚ) 5 5 = 'x' ∧
    labelColor (1 : ℚ) 1 1 = 'g' ∧ labelColor (2 : ℚ) 1.7 1.7 = 'w' := by
  refine ⟨?_, ?_, ?_, ?_⟩ <;> norm_num [labelColor, checkFitness, normSqr]

/-! ## The claims -/

/-- C1. Marking of the contour merger.  For a tracker with minimum contour size
80 and a frame whose pruned edge map yields at least one contour, the
relaxation loop of `findPupil` stops, and there is a relaxation `relax` in
{0, 2, 4, ...} such that some contour has at least `80 - relax` points, no
smaller relaxation in {0, 2, 4, ...} has that property, and contour `i` is
marked mergeable exactly when its point count is at least `80 - relax`.  (The
variable `relaxContourMerge` itself is `relax + 2` at the exit.) -/
theorem C1_marking_at_smallest_relaxation {Mat : Type} (cv : OpenCV Mat) (t : PupilTracker)
    (imageIn : Mat) (fuel : Nat) (hmin : t.m_min_contour_size = 80) (hfuel : 41 ≤ fuel)
    (hne : contoursOf cv t imageIn ≠ []) :
    ∃ (run : FindPupilRun Mat) (relax : Int),
      findPupil cv fuel t imageIn = some run ∧
      run.contours = contoursOf cv t imageIn ∧
      (∃ j : Nat, relax = 2 * j) ∧
      (∃ c ∈ run.contours, t.m_min_contour_size - relax ≤ c.length) ∧
      (∀ r : Int, (∃ i : Nat, r = 2 * i) → r < relax →
        ∀ c ∈ run.contours, ¬ (t.m_min_contour_size - r ≤ c.length)) ∧
      run.merge.contourMergeable.length = run.contours.length ∧
      (∀ (i : Nat) (hi : i < run.contours.length),
        (run.merge.contourMergeable.getD i false = true ↔
          t.m_min_contour_size - relax ≤ (run.contours.get ⟨i, hi⟩).length)) ∧
      run.merge.relaxContourMerge = relax + 2 := by
  obtain ⟨j, _, hex, hfail, hloop⟩ := mergeLoop_80 (contoursOf cv t imageIn) hne fuel hfuel
  rw [← hmin] at hloop
  obtain ⟨run, hrun, _, _, hc, hm, _, _, _, _⟩ := findPupil_of_mergeLoop cv fuel t imageIn _ hloop
  refine ⟨run, 2 * (j : Int), hrun, hc, ⟨j, rfl⟩, ?_, ?_, ?_, ?_, ?_⟩
  · rw [hc, hmin]; exact hex
  · rintro r ⟨i, rfl⟩ hlt c hcm
    rw [hc] at hcm
    have := hfail i (by omega) c hcm
    rw [hmin]; omega
  · rw [hm, hc]; simp
  · intro i hi
    have hi2 : i < (contoursOf cv t imageIn).length := by rw [← hc]; exact hi
    rw [hm]
    simp only [hmin, List.getD_eq_getElem?_getD, List.getElem?_map, List.get_eq_getElem]
    rw [List.getElem?_eq_getElem hi2]
    simp [hc]
  · rw [hm]

/-- Witness for C1: the hypotheses hold for the constructed tracker on the sample
contours `[[p00, p10], [p00]]`. -/
theorem C1_marking_at_smallest_relaxation_witness :
    PupilTracker.PupilTracker.m_min_contour_size = 80 ∧
    41 ≤ 41 ∧
    contoursOf contourLib PupilTracker.PupilTracker [[p00, p10], [p00]] ≠ [] ∧
    ∃ (run : FindPupilRun (List Contour)) (relax : Int),
      findPupil contourLib 41 PupilTracker.PupilTracker [[p00, p10], [p00]] = some run ∧
      run.contours = contoursOf contourLib PupilTracker.PupilTracker [[p00, p10], [p00]] ∧
      (∃ j : Nat, relax = 2 * j) ∧
      (∃ c ∈ run.contours, PupilTracker.PupilTracker.m_min_contour_size - relax ≤ c.length) ∧
      (∀ r : Int, (∃ i : Nat, r = 2 * i) → r < relax →
        ∀ c ∈ run.contours, ¬ (PupilTracker.PupilTracker.m_min_contour_size - r ≤ c.length)) ∧
      run.merge.contourMergeable.length = run.contours.length ∧
      (∀ (i : Nat) (hi : i < run.contours.length),
        (run.merge.contourMergeable.getD i false = true ↔
          PupilTracker.PupilTracker.m_min_contour_size - relax ≤ (run.contours.get ⟨i, hi⟩).length)) ∧
      run.merge.relaxContourMerge = relax + 2 :=
  ⟨rfl, by decide, by decide,
    C1_marking_at_smallest_relaxation contourLib PupilTracker.PupilTracker [[p00, p10], [p00]] 41 rfl (by decide) (by decide)⟩

/-- C3, counterexample to the claim as stated.  With the contours `[p00, p10]`
and `[p00]` the loop relaxes to the threshold 2: the first contour is
mergeable, the second is not, and the merged point set `[p00, p10]` contains
`p00`, a point of the second, non-mergeable contour. -/
theorem C3_counterexample_shared_point :
    ∃ run : FindPupilRun (List Contour),
      findPupil contourLib 41 PupilTracker.PupilTracker [[p00, p10], [p00]] = some run ∧
      run.merge.contourMergeable = [true, false] ∧
      run.merged.contoursMerged = [p00, p10] ∧
      ∃ (i : Nat) (p : Point),
        run.merge.contourMergeable.getD i true = false ∧
        p ∈ run.contours.getD i [] ∧ p ∈ run.merged.contoursMerged :=
  ⟨_, rfl, by decide, by decide, 1, p00, by decide, by decide, by decide⟩

/-- C3, as amended.  For a tracker with minimum contour size 80, the merged
point set built by `findPupil` is the concatenation, in increasing contour
index and preserving the order of the points of each contour, of the points of
exactly the mergeable contours; its length is the sum of the point counts of
the mergeable contours; and every point in it is a point of some mergeable
contour. -/
theorem C3_merged_is_concatenation_of_mergeable {Mat : Type} (cv : OpenCV Mat)
    (t : PupilTracker) (imageIn : Mat) (fuel : Nat) (hmin : t.m_min_contour_size = 80)
    (hfuel : 41 ≤ fuel) :
    ∃ run : FindPupilRun Mat,
      findPupil cv fuel t imageIn = some run ∧
      run.contours = contoursOf cv t imageIn ∧
      run.merge.contourMergeable.length = run.contours.length ∧
      run.merged.contoursMerged
        = (((run.contours.zip run.merge.contourMergeable).filter (fun cb => cb.2)).map
            (fun cb => cb.1)).flatten ∧
      run.merged.contoursMerged.length
        = ((((run.contours.zip run.merge.contourMergeable).filter (fun cb => cb.2)).map
            (fun cb => cb.1.length))).sum ∧
      (∀ p ∈ run.merged.contoursMerged,
        ∃ (i : Nat) (hi : i < run.contours.length),
          run.merge.contourMergeable.getD i false = true ∧ p ∈ run.contours.get ⟨i, hi⟩) := by
  obtain ⟨run, hrun, _, _, hc, hlen, hpts, _, _, _, _, _, _⟩ :=
    findPupil_80 cv t imageIn fuel hmin hfuel
  refine ⟨run, hrun, hc, hlen, hpts, ?_, ?_⟩
  · rw [hpts, mergeableContours, List.length_flatten, List.map_map]
    rfl
  · intro p hp
    rw [hpts] at hp
    exact mem_flatten_mergeableContours _ _ p hp

/-- Witness for C3: the hypotheses hold for the constructed tracker on the sample
contours `[[p00, p10], [p00]]`. -/
theorem C3_merged_is_concatenation_of_mergeable_witness :
    PupilTracker.PupilTracker.m_min_contour_size = 80 ∧
    41 ≤ 41 ∧
    ∃ run : FindPupilRun (List Contour),
      findPupil contourLib 41 PupilTracker.PupilTracker [[p00, p10], [p00]] = some run ∧
      run.contours = contoursOf contourLib PupilTracker.PupilTracker [[p00, p10], [p00]] ∧
      run.merge.contourMergeable.length = run.contours.length ∧
      run.merged.contoursMerged
        = (((run.contours.zip run.merge.contourMergeable).filter (fun cb => cb.2)).map
            (fun cb => cb.1)).flatten ∧
      run.merged.contoursMerged.length
        = ((((run.contours.zip run.merge.contourMergeable).filter (fun cb => cb.2)).map
            (fun cb => cb.1.length))).sum ∧
      (∀ p ∈ run.merged.contoursMerged,
        ∃ (i : Nat) (hi : i < run.contours.length),
          run.merge.contourMergeable.getD i false = true ∧ p ∈ run.contours.get ⟨i, hi⟩) :=
  ⟨rfl, by decide,
    C3_merged_is_concatenation_of_mergeable contourLib PupilTracker.PupilTracker [[p00, p10], [p00]] 41 rfl (by decide)⟩

/-- C4. When the pruned edge map yields no contour, `findPupil` returns (with
any fuel, the body of the relaxation loop is not executed at all), no contour
is mergeable, the merged point set is empty, `cv::fitEllipse` is not called,
the stored ellipse is unchanged and the value returned is `false`. -/
theorem C4_no_contours_returns_false {Mat : Type} (cv : OpenCV Mat) (t : PupilTracker)
    (imageIn : Mat) (fuel : Nat) (hnil : contoursOf cv t imageIn = []) :
    ∃ run : FindPupilRun Mat,
      findPupil cv fuel t imageIn = some run ∧
      run.contours = [] ∧
      run.merge.passes = 0 ∧
      run.merge.contourMergeable = [] ∧
      run.merged.contoursMerged = [] ∧
      run.merged.success = false ∧
      run.fitCalls = [] ∧
      run.tracker.m_ellipseRectangle = t.m_ellipseRectangle ∧
      run.returned = false := by
  have hnil1 : contoursOf cv { t with m_bin_thresh := (spikesOf cv imageIn).lowestSpike } imageIn
      = [] := hnil
  have hloop : mergeLoop [] t.m_min_contour_size fuel (mergeInit []) = some (mergeInit []) :=
    mergeLoop_nil _ _
  unfold findPupil
  simp only [hnil1, hloop]
  simp [performMerge, mergeInit, MergeVars.passes]

/-- Witness for C4: the hypotheses hold for the constructed tracker on the sample
contours `[]`. -/
theorem C4_no_contours_returns_false_witness :
    contoursOf contourLib PupilTracker.PupilTracker [] = [] ∧
    ∃ run : FindPupilRun (List Contour),
      findPupil contourLib 41 PupilTracker.PupilTracker [] = some run ∧
      run.contours = [] ∧
      run.merge.passes = 0 ∧
      run.merge.contourMergeable = [] ∧
      run.merged.contoursMerged = [] ∧
      run.merged.success = false ∧
      run.fitCalls = [] ∧
      run.tracker.m_ellipseRectangle = PupilTracker.PupilTracker.m_ellipseRectangle ∧
      run.returned = false :=
  ⟨by decide,
    C4_no_contours_returns_false contourLib PupilTracker.PupilTracker [] 41 (by decide)⟩

/-- C5. Relaxation termination.  For a tracker with minimum contour size 80 the
merge loop of `findPupil` terminates (41 units of fuel always suffice); it
performs no pass when there is no contour, and when the smallest point count
of a contour is `m` it performs at most `ceil(max(80 - m, 0) / 2) + 1` passes. -/
theorem C5_relaxation_terminates_within_bound {Mat : Type} (cv : OpenCV Mat) (t : PupilTracker)
    (imageIn : Mat) (fuel : Nat) (hmin : t.m_min_contour_size = 80) (hfuel : 41 ≤ fuel) :
    ∃ run : FindPupilRun Mat,
      findPupil cv fuel t imageIn = some run ∧
      run.contours = contoursOf cv t imageIn ∧
      (run.contours = [] → run.merge.passes = 0) ∧
      (∀ m : Nat, (∃ c ∈ run.contours, c.length = m) → (∀ c ∈ run.contours, m ≤ c.length) →
        (run.merge.passes : Int) ≤ (max (t.m_min_contour_size - (m : Int)) 0 + 1) / 2 + 1) := by
  obtain ⟨run, hrun, _, _, hc, _, _, _, _, _, _, hnil, hcons⟩ :=
    findPupil_80 cv t imageIn fuel hmin hfuel
  refine ⟨run, hrun, hc, ?_, ?_⟩
  · intro h
    rw [hnil h]
    simp [MergeVars.passes, mergeInit]
  · rintro m ⟨c, hcm, rfl⟩ _
    have hne : run.contours ≠ [] := List.ne_nil_of_mem hcm
    obtain ⟨j, hj, _, hfail, hm⟩ := hcons hne
    have hp : run.merge.passes = j + 1 := by
      rw [hm]; simp [MergeVars.passes]
    rw [hp, hmin]
    by_contra hcon
    have hlt : (80 - c.length + 1) / 2 < j := by
      push_neg at hcon
      omega
    have := hfail _ hlt c hcm
    omega

/-- Witness for C5: the hypotheses hold for the constructed tracker on the sample
contours `[[p00, p10], [p00]]`. -/
theorem C5_relaxation_terminates_within_bound_witness :
    PupilTracker.PupilTracker.m_min_contour_size = 80 ∧
    41 ≤ 41 ∧
    ∃ run : FindPupilRun (List Contour),
      findPupil contourLib 41 PupilTracker.PupilTracker [[p00, p10], [p00]] = some run ∧
      run.contours = contoursOf contourLib PupilTracker.PupilTracker [[p00, p10], [p00]] ∧
      (run.contours = [] → run.merge.passes = 0) ∧
      (∀ m : Nat, (∃ c ∈ run.contours, c.length = m) → (∀ c ∈ run.contours, m ≤ c.length) →
        (run.merge.passes : Int) ≤ (max (PupilTracker.PupilTracker.m_min_contour_size - (m : Int)) 0 + 1) / 2 + 1) :=
  ⟨rfl, by decide,
    C5_relaxation_terminates_within_bound contourLib PupilTracker.PupilTracker [[p00, p10], [p00]] 41 rfl (by decide)⟩

/-- C6, counterexample to the claim as stated.  With the single contour `[p00]`
of one point the loop stops after 41 passes with that contour marked
mergeable and `success` set; `cv::fitEllipse` is called on the one point and
raises its error, so the call does not report `false`.  With the five
single-point contours of `noiseContours` the call returns `true`. -/
theorem C6_counterexample_single_point :
    (∃ run : FindPupilRun (List Contour),
      findPupil contourLib 41 PupilTracker.PupilTracker [[p00]] = some run ∧
      run.contours ≠ [] ∧ (∀ c ∈ run.contours, c.length = 1) ∧
      run.merge.contourMergeable = [true] ∧
      run.merged.success = true ∧ run.fitCalls = [[p00]]) ∧
    findPupilEnd contourLib 3 41 PupilTracker.PupilTracker [[p00]]
      = some CallEnd.fitEllipseError ∧
    (∀ c ∈ noiseContours, c.length = 1) ∧
    findPupilEnd contourLib 3 41 PupilTracker.PupilTracker noiseContours
      = some (CallEnd.returned true) :=
  ⟨⟨_, rfl, by decide, by decide, by decide, by decide, by decide⟩, by decide, by decide,
    by decide⟩

/-- C6, as amended (scenario C).  For a tracker with minimum contour size 80, a
frame that `cv::cvtColor` accepts and a non-empty list of contours of a single
point each, the merge loop of `findPupil` relaxes fully (41 passes, the
threshold going from 80 down to 0 in steps of 2) and terminates; in the last
pass every contour is marked mergeable, so the merged point set holds all the
points, one for each contour, `success` is set and `cv::fitEllipse` is called
on the merged points.  With at least 5 contours the call returns `true`; with
1 to 4 contours it ends with the error of `cv::fitEllipse`. -/
theorem C6_single_point_contours_all_merged {Mat : Type} (cv : OpenCV Mat) (channels : Nat)
    (t : PupilTracker) (imageIn : Mat) (fuel : Nat)
    (hch : cvtColorAccepts channels = true)
    (hmin : t.m_min_contour_size = 80) (hfuel : 41 ≤ fuel)
    (hne : contoursOf cv t imageIn ≠ [])
    (hone : ∀ c ∈ contoursOf cv t imageIn, c.length = 1) :
    ∃ (run : FindPupilRun Mat) (e : CallEnd),
      findPupil cv fuel t imageIn = some run ∧
      findPupilEnd cv channels fuel t imageIn = some e ∧
      run.contours = contoursOf cv t imageIn ∧
      run.merge.passes = 41 ∧
      run.merge.thresholds = (List.range 41).map (fun (i : Nat) => (80 : Int) - 2 * i) ∧
      run.merge.contourMergeable = List.replicate run.contours.length true ∧
      run.merged.contoursMerged = run.contours.flatten ∧
      run.merged.contoursMerged.length = run.contours.length ∧
      run.merged.success = true ∧
      run.fitCalls = [run.contours.flatten] ∧
      (5 ≤ run.contours.length → e = CallEnd.returned true) ∧
      (run.contours.length < 5 → e = CallEnd.fitEllipseError) := by
  obtain ⟨run, hrun, _, _, hc, _, hpts, hs, hf, hr, _, _, hcons⟩ :=
    findPupil_80 cv t imageIn fuel hmin hfuel
  obtain ⟨e, he, _, htrue, herr⟩ :=
    findPupilEnd_of_run cv channels fuel t imageIn run hch hrun hf hr
  have hne2 : run.contours ≠ [] := by rw [hc]; exact hne
  obtain ⟨j, hj, ⟨c0, hc0, hq0⟩, _, hm⟩ := hcons hne2
  have h1 : c0.length = 1 := hone c0 (by rw [← hc]; exact hc0)
  have hj40 : j = 40 := by omega
  subst hj40
  have hflags : run.merge.contourMergeable = run.contours.map (fun _ => true) := by
    rw [hm]
    simp
  have hsucc : run.merged.success = true := by
    rw [hs, hflags, List.any_eq_true]
    exact ⟨true, by simpa [List.mem_map] using hne2, rfl⟩
  have hmerged : run.merged.contoursMerged = run.contours.flatten := by
    rw [hpts, hflags, mergeableContours_map]
    simp
  have hcount : run.merged.contoursMerged.length = run.contours.length := by
    rw [hmerged]
    exact length_flatten_of_single _ (by rw [hc]; exact hone)
  refine ⟨run, e, hrun, he, hc, ?_, ?_, ?_, hmerged, hcount, hsucc, ?_, ?_, ?_⟩
  · rw [hm]; simp [MergeVars.passes]
  · rw [hm]
  · rw [hflags]; simp [List.map_const']
  · rw [hf, hsucc, hmerged]; simp
  · intro h5
    exact htrue hsucc (by omega)
  · intro h5
    exact herr hsucc (by omega)

/-- Witness for C6: the hypotheses hold for the constructed tracker on a
3-channel frame with the two single-point contours `[[p00], [p10]]`. -/
theorem C6_single_point_contours_all_merged_witness :
    cvtColorAccepts 3 = true ∧
    PupilTracker.PupilTracker.m_min_contour_size = 80 ∧
    41 ≤ 41 ∧
    contoursOf contourLib PupilTracker.PupilTracker [[p00], [p10]] ≠ [] ∧
    (∀ c ∈ contoursOf contourLib PupilTracker.PupilTracker [[p00], [p10]], c.length = 1) ∧
    ∃ (run : FindPupilRun (List Contour)) (e : CallEnd),
      findPupil contourLib 41 PupilTracker.PupilTracker [[p00], [p10]] = some run ∧
      findPupilEnd contourLib 3 41 PupilTracker.PupilTracker [[p00], [p10]] = some e ∧
      run.contours = contoursOf contourLib PupilTracker.PupilTracker [[p00], [p10]] ∧
      run.merge.passes = 41 ∧
      run.merge.thresholds = (List.range 41).map (fun (i : Nat) => (80 : Int) - 2 * i) ∧
      run.merge.contourMergeable = List.replicate run.contours.length true ∧
      run.merged.contoursMerged = run.contours.flatten ∧
      run.merged.contoursMerged.length = run.contours.length ∧
      run.merged.success = true ∧
      run.fitCalls = [run.contours.flatten] ∧
      (5 ≤ run.contours.length → e = CallEnd.returned true) ∧
      (run.contours.length < 5 → e = CallEnd.fitEllipseError) :=
  ⟨rfl, rfl, by decide, by decide, by decide,
    C6_single_point_contours_all_merged contourLib 3 PupilTracker.PupilTracker [[p00], [p10]] 41
      rfl rfl (by decide) (by decide) (by decide)⟩

/-- C7, counterexample to the claim as stated.  With the two contours `[p00]`
and `[p10]` the merged point set has 2 points, fewer than 5, and still
`cv::fitEllipse` is called on it; the call does not return `false` but ends
with the error that `cv::fitEllipse` raises. -/
theorem C7_counterexample_fit_on_two_points :
    (∃ run : FindPupilRun (List Contour),
      findPupil contourLib 41 PupilTracker.PupilTracker [[p00], [p10]] = some run ∧
      run.merged.contoursMerged.length < 5 ∧
      run.fitCalls = [[p00, p10]]) ∧
    findPupilEnd contourLib 3 41 PupilTracker.PupilTracker [[p00], [p10]]
      = some CallEnd.fitEllipseError :=
  ⟨⟨_, rfl, by decide, by decide⟩, by decide⟩

/-- C7, as amended.  `findPupil` has no guard on the number of merged points.
For a tracker with minimum contour size 80 and a frame that `cv::cvtColor`
accepts: when there is no contour the call returns `false` without calling
`cv::fitEllipse`; when there is at least one contour, `cv::fitEllipse` is
called exactly once, on the merged point set, which has at least as many
points as every single contour.  The call then returns `true`
if the merged point set has at least 5 points, as it has whenever some contour
has at least 5 points, and it ends with the error of `cv::fitEllipse` if the
merged point set has fewer than 5 points. -/
theorem C7_fit_called_iff_contours_exist {Mat : Type} (cv : OpenCV Mat) (channels : Nat)
    (t : PupilTracker) (imageIn : Mat) (fuel : Nat)
    (hch : cvtColorAccepts channels = true)
    (hmin : t.m_min_contour_size = 80) (hfuel : 41 ≤ fuel) :
    ∃ (run : FindPupilRun Mat) (e : CallEnd),
      findPupil cv fuel t imageIn = some run ∧
      findPupilEnd cv channels fuel t imageIn = some e ∧
      run.contours = contoursOf cv t imageIn ∧
      (run.contours = [] → run.fitCalls = [] ∧ e = CallEnd.returned false) ∧
      (run.contours ≠ [] →
        run.fitCalls = [run.merged.contoursMerged] ∧
        (∀ c ∈ run.contours, c.length ≤ run.merged.contoursMerged.length) ∧
        (5 ≤ run.merged.contoursMerged.length → e = CallEnd.returned true) ∧
        ((∃ c ∈ run.contours, 5 ≤ c.length) → e = CallEnd.returned true) ∧
        (run.merged.contoursMerged.length < 5 → e = CallEnd.fitEllipseError)) := by
  obtain ⟨run, hrun, _, _, hc, _, hpts, hs, hf, hr, _, hnil, hcons⟩ :=
    findPupil_80 cv t imageIn fuel hmin hfuel
  obtain ⟨e, he, hfalse, htrue, herr⟩ :=
    findPupilEnd_of_run cv channels fuel t imageIn run hch hrun hf hr
  refine ⟨run, e, hrun, he, hc, ?_, ?_⟩
  · intro h
    have hsucc : run.merged.success = false := by
      rw [hs, hnil h]; simp [mergeInit]
    exact ⟨by rw [hf, hsucc]; simp, hfalse hsucc⟩
  · intro hne
    obtain ⟨j, hj, ⟨c0, hc0, hq0⟩, _, hm⟩ := hcons hne
    have hflags : run.merge.contourMergeable
        = run.contours.map (fun c => decide ((80 : Int) - 2 * j ≤ c.length)) := by rw [hm]
    have hmerged : run.merged.contoursMerged
        = (run.contours.filter (fun c => decide ((80 : Int) - 2 * j ≤ c.length))).flatten := by
      rw [hpts, hflags, mergeableContours_map]
    have hsucc : run.merged.success = true := by
      rw [hs, hflags, List.any_eq_true]
      exact ⟨true, by simp only [List.mem_map, decide_eq_true_eq]; exact ⟨c0, hc0, hq0⟩, rfl⟩
    have hbig : c0.length ≤ run.merged.contoursMerged.length := by
      rw [hmerged]
      exact length_le_length_flatten _ c0 (List.mem_filter.mpr ⟨hc0, by simpa using hq0⟩)
    have hall : ∀ c ∈ run.contours, c.length ≤ run.merged.contoursMerged.length := by
      intro c hcm
      by_cases hq : (80 : Int) - 2 * j ≤ c.length
      · rw [hmerged]
        exact length_le_length_flatten _ c (List.mem_filter.mpr ⟨hcm, by simpa using hq⟩)
      · omega
    refine ⟨by rw [hf, hsucc]; simp, hall, htrue hsucc, ?_, herr hsucc⟩
    rintro ⟨c, hcm, h5⟩
    exact htrue hsucc (le_trans h5 (hall c hcm))

/-- Witness for C7: the hypotheses hold for the constructed tracker on a
3-channel frame with the sample contours `[[p00, p10], [p00]]`. -/
theorem C7_fit_called_iff_contours_exist_witness :
    cvtColorAccepts 3 = true ∧
    PupilTracker.PupilTracker.m_min_contour_size = 80 ∧
    41 ≤ 41 ∧
    ∃ (run : FindPupilRun (List Contour)) (e : CallEnd),
      findPupil contourLib 41 PupilTracker.PupilTracker [[p00, p10], [p00]] = some run ∧
      findPupilEnd contourLib 3 41 PupilTracker.PupilTracker [[p00, p10], [p00]] = some e ∧
      run.contours = contoursOf contourLib PupilTracker.PupilTracker [[p00, p10], [p00]] ∧
      (run.contours = [] → run.fitCalls = [] ∧ e = CallEnd.returned false) ∧
      (run.contours ≠ [] →
        run.fitCalls = [run.merged.contoursMerged] ∧
        (∀ c ∈ run.contours, c.length ≤ run.merged.contoursMerged.length) ∧
        (5 ≤ run.merged.contoursMerged.length → e = CallEnd.returned true) ∧
        ((∃ c ∈ run.contours, 5 ≤ c.length) → e = CallEnd.returned true) ∧
        (run.merged.contoursMerged.length < 5 → e = CallEnd.fitEllipseError)) :=
  ⟨rfl, rfl, by decide,
    C7_fit_called_iff_contours_exist contourLib 3 PupilTracker.PupilTracker [[p00, p10], [p00]] 41
      rfl rfl (by decide)⟩

/-- C8, the code at a failing input.  In `twoLevelCounts` exactly the bins 0 and
128 reach the minimum spike size, so the claim asks for `lowestSpike = 0`,
`highestSpike = 128` and `numSpikes = 2`; this is what the loop yields when it
is given the bin counts themselves.  On the histogram matrix the loop of
`findPupil` yields `lowestSpike = 1`, `highestSpike = 3` and `numSpikes = 3`:
`hist.at<uchar>(0, i)` reads byte `i` of the storage, and bytes 1, 2 and 3 of
the float 5000.0 in bin 0 are 0x40, 0x9C and 0x45. -/
theorem C8_spike_scan_reads_storage_bytes :
    twoLevelCounts.length = 256 ∧
    spikeBins twoLevelCounts = [0, 128] ∧
    findSpikes (fun i => twoLevelCounts.getD i 0) =
      { lowestSpike := 0, highestSpike := 128, numSpikes := 2 } ∧
    findSpikes (histAtUchar (histOfCounts twoLevelCounts)) =
      { lowestSpike := 1, highestSpike := 3, numSpikes := 3 } := by
  decide

/-- C9, the code at a failing input.  In `uniformCounts`, the histogram of a
uniform frame of 100 x 100 pixels, only bin 0 reaches the minimum spike size,
so the claim asks for the defaults `lowestSpike = 0` and `highestSpike = 255`.
The loop of `findPupil` counts two spikes, at the byte offsets 1 and 3 of the
float 10000.0 in bin 0 (bytes 0x40 and 0x46), and yields `lowestSpike = 1` and
`highestSpike = 3`. -/
theorem C9_uniform_frame_misses_defaults :
    uniformCounts.length = 256 ∧
    spikeBins uniformCounts = [0] ∧
    findSpikes (histAtUchar (histOfCounts uniformCounts)) =
      { lowestSpike := 1, highestSpike := 3, numSpikes := 2 } := by
  decide

/-- C10. For a tracker with minimum contour size 80 (and whatever histogram
`cv::calcHist` delivers), `findPupil` returns, the spike levels it has computed
are those of the spike scan on the histogram of the frame, both are integers
in [0, 255], and after the call `m_bin_thresh` equals `lowestSpike`. -/
theorem C10_spike_levels_in_range {Mat : Type} (cv : OpenCV Mat) (t : PupilTracker)
    (imageIn : Mat) (fuel : Nat) (hmin : t.m_min_contour_size = 80) (hfuel : 41 ≤ fuel) :
    ∃ run : FindPupilRun Mat,
      findPupil cv fuel t imageIn = some run ∧
      run.lowestSpike = (findSpikes (histAtUchar (histOf cv imageIn))).lowestSpike ∧
      run.highestSpike = (findSpikes (histAtUchar (histOf cv imageIn))).highestSpike ∧
      (0 ≤ run.lowestSpike ∧ run.lowestSpike ≤ 255) ∧
      (0 ≤ run.highestSpike ∧ run.highestSpike ≤ 255) ∧
      run.tracker.m_bin_thresh = run.lowestSpike := by
  obtain ⟨run, hrun, hl, hh, _, _, _, _, _, _, hb, _, _⟩ :=
    findPupil_80 cv t imageIn fuel hmin hfuel
  obtain ⟨h1, h2, h3, h4⟩ := findSpikes_inRange (histAtUchar (histOf cv imageIn))
  refine ⟨run, hrun, hl, hh, ?_, ?_, hb⟩
  · rw [hl]; exact ⟨h1, h2⟩
  · rw [hh]; exact ⟨h3, h4⟩

/-- Witness for C10: the hypotheses hold for the constructed tracker on the sample
contours `[[p00, p10], [p00]]`. -/
theorem C10_spike_levels_in_range_witness :
    PupilTracker.PupilTracker.m_min_contour_size = 80 ∧
    41 ≤ 41 ∧
    ∃ run : FindPupilRun (List Contour),
      findPupil contourLib 41 PupilTracker.PupilTracker [[p00, p10], [p00]] = some run ∧
      run.lowestSpike = (findSpikes (histAtUchar (histOf contourLib [[p00, p10], [p00]]))).lowestSpike ∧
      run.highestSpike = (findSpikes (histAtUchar (histOf contourLib [[p00, p10], [p00]]))).highestSpike ∧
      (0 ≤ run.lowestSpike ∧ run.lowestSpike ≤ 255) ∧
      (0 ≤ run.highestSpike ∧ run.highestSpike ≤ 255) ∧
      run.tracker.m_bin_thresh = run.lowestSpike :=
  ⟨rfl, by decide,
    C10_spike_levels_in_range contourLib PupilTracker.PupilTracker [[p00, p10], [p00]] 41 rfl (by decide)⟩

/-- C11, the code at a failing input.  `sampleFrame` is a normalized grayscale
frame of 4 pixels, two of them of intensity 255.  The histogram that
`findPupil` computes for it (256 bins over the range from 0 to 255, the upper
boundary being exclusive) counts the pixels of intensity 0 and 128 only: bin
255 is empty although two pixels have intensity 255, and the bins sum to 2,
not to the 4 pixels of the frame. -/
theorem C11_histogram_drops_intensity_255 :
    imageGrayOf (gridOps plainLib) sampleFrame = sampleFrame ∧
    numPixels sampleFrame = 4 ∧
    countIntensity sampleFrame 255 = 2 ∧
    histOf (gridOps plainLib) sampleFrame
      = histOfCounts (calcHistCounts sampleFrame 256 0 255) ∧
    (calcHistCounts sampleFrame 256 0 255).length = 256 ∧
    (calcHistCounts sampleFrame 256 0 255).getD 255 0 = 0 ∧
    (calcHistCounts sampleFrame 256 0 255).sum = 2 := by
  decide

/-- C12. Dark mask.  With the pixel routines of the library filled in, the dark
mask of `findPupil` is the result of `cv::dilate`, called with the 7 x 7
elliptical structuring element and 2 iterations, on the selection computed by
`cv::inRange`; a pixel of that selection is 255 (selected) exactly when its
intensity `v` in the grayscale frame satisfies
`0 <= v <= lowestSpike + m_pupilIntensityOffset`, and 0 otherwise; the
constructor sets the offset to 11. -/
theorem C12_dark_mask_selection (cv : OpenCV Gray) (t : PupilTracker) (imageIn : Gray) :
    darkMaskOf (gridOps cv) t imageIn
      = cv.dilate
          (inRange (imageGrayOf (gridOps cv) imageIn) 0
            ((spikesOf (gridOps cv) imageIn).lowestSpike + t.m_pupilIntensityOffset))
          (cv.getStructuringElement 7 7) 2 ∧
    (∀ r c : Nat,
      pixel
          (inRange (imageGrayOf (gridOps cv) imageIn) 0
            ((spikesOf (gridOps cv) imageIn).lowestSpike + t.m_pupilIntensityOffset)) r c
        = (pixel (imageGrayOf (gridOps cv) imageIn) r c).map
            (fun (v : Nat) =>
              if 0 ≤ (v : Int) ∧
                  (v : Int) ≤ (spikesOf (gridOps cv) imageIn).lowestSpike + t.m_pupilIntensityOffset
              then 255 else 0)) ∧
    PupilTracker.PupilTracker.m_pupilIntensityOffset = 11 :=
  ⟨rfl, fun r c => pixel_inRange _ _ _ r c, rfl⟩

/-- C13. Light mask.  With the pixel routines of the library filled in, the
light mask of `findPupil` is the result of `cv::erode`, called with the same
7 x 7 elliptical structuring element and 1 iteration, on the selection computed
by `cv::inRange`; a pixel of that selection is 255 (selected) exactly when its
intensity `v` in the grayscale frame satisfies
`0 <= v <= highestSpike - m_glintIntensityOffset`, and 0 otherwise; the
constructor sets the offset to 5. -/
theorem C13_light_mask_selection (cv : OpenCV Gray) (t : PupilTracker) (imageIn : Gray) :
    glintMaskOf (gridOps cv) t imageIn
      = cv.erode
          (inRange (imageGrayOf (gridOps cv) imageIn) 0
            ((spikesOf (gridOps cv) imageIn).highestSpike - t.m_glintIntensityOffset))
          (cv.getStructuringElement 7 7) 1 ∧
    (∀ r c : Nat,
      pixel
          (inRange (imageGrayOf (gridOps cv) imageIn) 0
            ((spikesOf (gridOps cv) imageIn).highestSpike - t.m_glintIntensityOffset)) r c
        = (pixel (imageGrayOf (gridOps cv) imageIn) r c).map
            (fun (v : Nat) =>
              if 0 ≤ (v : Int) ∧
                  (v : Int) ≤ (spikesOf (gridOps cv) imageIn).highestSpike - t.m_glintIntensityOffset
              then 255 else 0)) ∧
    PupilTracker.PupilTracker.m_glintIntensityOffset = 5 :=
  ⟨rfl, fun r c => pixel_inRange _ _ _ r c, rfl⟩

/-- C14. Edge pruning.  The pruned edge map of `findPupil` is the pixelwise
minimum of the edges and the dark mask, then of that and the glint mask.  For
images `edges`, `darkMask` and `glintMask` of one size with values in
{0, 255}, this map is 255 at a position where all three are 255 and 0 at every
other position; so a pixel that is 255 in the pruned map is an edge and is
selected in both masks. -/
theorem C14_pruned_edges_are_conjunction (edges darkMask glintMask : Gray)
    (hd : SameSize edges darkMask) (hg : SameSize edges glintMask)
    (he : Binary edges) (hdb : Binary darkMask) (hgb : Binary glintMask) :
    (∀ (cv : OpenCV Gray) (t : PupilTracker) (imageIn : Gray),
      edgesPrunedOf (gridOps cv) t imageIn
        = gridMin
            (gridMin (edgesOf (gridOps cv) t imageIn) (darkMaskOf (gridOps cv) t imageIn))
            (glintMaskOf (gridOps cv) t imageIn)) ∧
    (∀ r c : Nat,
      pixel (gridMin (gridMin edges darkMask) glintMask) r c =
        (pixel edges r c).map (fun _ =>
          if pixel edges r c = some 255 ∧ pixel darkMask r c = some 255 ∧
              pixel glintMask r c = some 255 then 255 else 0)) ∧
    (∀ r c : Nat,
      pixel (gridMin (gridMin edges darkMask) glintMask) r c = some 255 →
        pixel edges r c = some 255 ∧ pixel darkMask r c = some 255 ∧
          pixel glintMask r c = some 255) := by
  refine ⟨fun _ _ _ => rfl, fun r c => pixel_pruned _ _ _ hd hg he hdb hgb r c, ?_⟩
  intro r c h
  rw [pixel_pruned _ _ _ hd hg he hdb hgb r c] at h
  cases hx : pixel edges r c with
  | none => rw [hx] at h; simp at h
  | some x =>
    rw [hx] at h
    simp only [Option.map_some', Option.some.injEq] at h
    split at h
    · rename_i hall
      exact ⟨by simpa using hall.1, hall.2.1, hall.2.2⟩
    · omega

/-- Witness for C14: three binary images of 2 x 2 pixels. -/
theorem C14_pruned_edges_are_conjunction_witness :
    SameSize [[255, 255], [0, 255]] [[255, 0], [255, 255]] ∧
    SameSize [[255, 255], [0, 255]] [[255, 255], [255, 0]] ∧
    Binary [[255, 255], [0, 255]] ∧ Binary [[255, 0], [255, 255]] ∧
    Binary [[255, 255], [255, 0]] ∧
    (∀ (cv : OpenCV Gray) (t : PupilTracker) (imageIn : Gray),
      edgesPrunedOf (gridOps cv) t imageIn
        = gridMin
            (gridMin (edgesOf (gridOps cv) t imageIn) (darkMaskOf (gridOps cv) t imageIn))
            (glintMaskOf (gridOps cv) t imageIn)) ∧
    (∀ r c : Nat,
      pixel (gridMin (gridMin [[255, 255], [0, 255]] [[255, 0], [255, 255]])
          [[255, 255], [255, 0]]) r c =
        (pixel [[255, 255], [0, 255]] r c).map (fun _ =>
          if pixel [[255, 255], [0, 255]] r c = some 255 ∧
              pixel [[255, 0], [255, 255]] r c = some 255 ∧
              pixel [[255, 255], [255, 0]] r c = some 255 then 255 else 0)) ∧
    (∀ r c : Nat,
      pixel (gridMin (gridMin [[255, 255], [0, 255]] [[255, 0], [255, 255]])
          [[255, 255], [255, 0]]) r c = some 255 →
        pixel [[255, 255], [0, 255]] r c = some 255 ∧
          pixel [[255, 0], [255, 255]] r c = some 255 ∧
          pixel [[255, 255], [255, 0]] r c = some 255) :=
  ⟨rfl, rfl, by unfold Binary; decide, by unfold Binary; decide, by unfold Binary; decide,
    C14_pruned_edges_are_conjunction [[255, 255], [0, 255]] [[255, 0], [255, 255]]
      [[255, 255], [255, 0]] rfl rfl (by unfold Binary; decide) (by unfold Binary; decide)
      (by unfold Binary; decide)⟩

/-- C15. Failure leaves the result untouched.  When a call of `findPupil`
returns `false`, `cv::fitEllipse` has not been called and the values of
`getEllipseRectangle` and `getEllipseCentroid` after the call are those from
before the call. -/
theorem C15_failure_keeps_stored_ellipse {Mat : Type} (cv : OpenCV Mat) (fuel : Nat)
    (t : PupilTracker) (imageIn : Mat) (run : FindPupilRun Mat)
    (h : findPupil cv fuel t imageIn = some run) (hret : run.returned = false) :
    getEllipseRectangle run.tracker = getEllipseRectangle t ∧
    getEllipseCentroid run.tracker = getEllipseCentroid t ∧
    run.fitCalls = [] := by
  obtain ⟨_, _, hf, ht⟩ := findPupil_tracker cv fuel t imageIn run h
  rw [hret] at hf ht
  refine ⟨?_, ?_, by simpa using hf⟩
  · rw [ht]; simp [getEllipseRectangle]
  · rw [ht]; simp [getEllipseCentroid]

/-- Witness for C15: the used tracker on a frame without contours; the call
returns `false` and the stored ellipse is kept. -/
theorem C15_failure_keeps_stored_ellipse_witness :
    ∃ run : FindPupilRun (List Contour),
      findPupil contourLib 0 usedTracker [] = some run ∧ run.returned = false ∧
      (getEllipseRectangle run.tracker = getEllipseRectangle usedTracker ∧
        getEllipseCentroid run.tracker = getEllipseCentroid usedTracker ∧
        run.fitCalls = []) :=
  ⟨_, rfl, rfl, C15_failure_keeps_stored_ellipse contourLib 0 usedTracker [] _ rfl rfl⟩

/-- C16. Success stores the fit.  When a call of `findPupil` returns `true`,
`cv::fitEllipse` has been called once, on the merged point set of that call;
afterwards `getEllipseRectangle` returns the ellipse it has fitted and
`getEllipseCentroid` the center of that ellipse. -/
theorem C16_success_stores_fit {Mat : Type} (cv : OpenCV Mat) (fuel : Nat)
    (t : PupilTracker) (imageIn : Mat) (run : FindPupilRun Mat)
    (h : findPupil cv fuel t imageIn = some run) (hret : run.returned = true) :
    run.fitCalls = [run.merged.contoursMerged] ∧
    getEllipseRectangle run.tracker = cv.fitEllipse run.merged.contoursMerged ∧
    getEllipseCentroid run.tracker = (cv.fitEllipse run.merged.contoursMerged).center := by
  obtain ⟨_, _, hf, ht⟩ := findPupil_tracker cv fuel t imageIn run h
  rw [hret] at hf ht
  refine ⟨by simpa using hf, ?_, ?_⟩
  · rw [ht]; simp [getEllipseRectangle]
  · rw [ht]; simp [getEllipseCentroid]

/-- Witness for C16: the used tracker on the sample contours `[[p00, p10], [p00]]`;
the call returns `true`. -/
theorem C16_success_stores_fit_witness :
    ∃ run : FindPupilRun (List Contour),
      findPupil contourLib 41 usedTracker [[p00, p10], [p00]] = some run ∧
      run.returned = true ∧
      (run.fitCalls = [run.merged.contoursMerged] ∧
        getEllipseRectangle run.tracker = contourLib.fitEllipse run.merged.contoursMerged ∧
        getEllipseCentroid run.tracker
          = (contourLib.fitEllipse run.merged.contoursMerged).center) :=
  ⟨_, rfl, by decide,
    C16_success_stores_fit contourLib 41 usedTracker [[p00, p10], [p00]] _ rfl (by decide)⟩

/-- C17. Determinism.  For two tracker objects with the same configuration,
whatever ellipse, `m_bin_thresh`, confidence and display flag they hold, a call
of `findPupil` on the same frame has the same outcome: both calls return or
neither does, they return the same flag, compute the same spike levels,
contours, flags and merged points, and call `cv::fitEllipse` on the same
points; when they return `true` the ellipse stored afterwards is the same. -/
theorem C17_outcome_depends_on_configuration_only {Mat : Type} (cv : OpenCV Mat) (fuel : Nat)
    (t1 t2 : PupilTracker) (imageIn : Mat) (hcfg : configOf t1 = configOf t2) :
    (findPupil cv fuel t1 imageIn).map outcomeOf = (findPupil cv fuel t2 imageIn).map outcomeOf ∧
    (findPupil cv fuel t1 imageIn).map (fun r => r.returned)
      = (findPupil cv fuel t2 imageIn).map (fun r => r.returned) ∧
    (∀ r1 r2 : FindPupilRun Mat,
      findPupil cv fuel t1 imageIn = some r1 → findPupil cv fuel t2 imageIn = some r2 →
        r1.returned = r2.returned ∧
        (r1.returned = true →
          getEllipseRectangle r1.tracker = getEllipseRectangle r2.tracker)) := by
  have hmain := findPupil_outcome_congr cv fuel t1 t2 imageIn hcfg
  refine ⟨hmain, ?_, ?_⟩
  · have := congrArg (Option.map (fun o => o.1)) hmain
    simpa [Option.map_map, Function.comp, outcomeOf] using this
  · intro r1 r2 h1 h2
    rw [h1, h2] at hmain
    simp only [Option.map_some', Option.some.injEq, outcomeOf, Prod.mk.injEq] at hmain
    obtain ⟨hr, _, _, _, _, _, _, _, he⟩ := hmain
    refine ⟨hr, fun htrue => ?_⟩
    rw [← hr, htrue] at he
    simpa [getEllipseRectangle] using he

/-- Witness for C17: the constructed tracker and the used tracker have the same
configuration. -/
theorem C17_outcome_depends_on_configuration_only_witness :
    configOf PupilTracker.PupilTracker = configOf usedTracker ∧
    ((findPupil contourLib 41 PupilTracker.PupilTracker [[p00, p10], [p00]]).map outcomeOf
        = (findPupil contourLib 41 usedTracker [[p00, p10], [p00]]).map outcomeOf ∧
      (findPupil contourLib 41 PupilTracker.PupilTracker [[p00, p10], [p00]]).map
          (fun r => r.returned)
        = (findPupil contourLib 41 usedTracker [[p00, p10], [p00]]).map (fun r => r.returned) ∧
      (∀ r1 r2 : FindPupilRun (List Contour),
        findPupil contourLib 41 PupilTracker.PupilTracker [[p00, p10], [p00]] = some r1 →
          findPupil contourLib 41 usedTracker [[p00, p10], [p00]] = some r2 →
          r1.returned = r2.returned ∧
          (r1.returned = true →
            getEllipseRectangle r1.tracker = getEllipseRectangle r2.tracker))) :=
  ⟨rfl,
    C17_outcome_depends_on_configuration_only contourLib 41 PupilTracker.PupilTracker usedTracker
      [[p00, p10], [p00]] rfl⟩

/-- C18. The display flag does not interfere.  For a tracker object and the
object that `setDisplay` makes of it, a call of `findPupil` on the same frame
returns in both cases or in neither, with the same flag, the same stored
ellipse and the same `m_bin_thresh` afterwards; and `setDisplay` changes no
field other than `m_display`. -/
theorem C18_display_flag_does_not_interfere {Mat : Type} (cv : OpenCV Mat) (fuel : Nat)
    (t : PupilTracker) (display : Bool) (imageIn : Mat) :
    (findPupil cv fuel (setDisplay t display) imageIn).map
        (fun r => (r.returned, r.tracker.m_ellipseRectangle, r.tracker.m_bin_thresh))
      = (findPupil cv fuel t imageIn).map
        (fun r => (r.returned, r.tracker.m_ellipseRectangle, r.tracker.m_bin_thresh)) ∧
    (setDisplay t display).m_display = display ∧
    (setDisplay t display).m_ellipseRectangle = t.m_ellipseRectangle ∧
    (setDisplay t display).m_blur = t.m_blur ∧
    (setDisplay t display).m_canny_thresh = t.m_canny_thresh ∧
    (setDisplay t display).m_canny_ratio = t.m_canny_ratio ∧
    (setDisplay t display).m_canny_aperture = t.m_canny_aperture ∧
    (setDisplay t display).m_bin_thresh = t.m_bin_thresh ∧
    (setDisplay t display).m_pupilIntensityOffset = t.m_pupilIntensityOffset ∧
    (setDisplay t display).m_glintIntensityOffset = t.m_glintIntensityOffset ∧
    (setDisplay t display).m_min_contour_size = t.m_min_contour_size ∧
    (setDisplay t display).m_confidence = t.m_confidence := by
  refine ⟨?_, rfl, rfl, rfl, rfl, rfl, rfl, rfl, rfl, rfl, rfl, rfl⟩
  obtain ⟨e, bl, ct, cr, ca, b, po, go, mn, c, d⟩ := t
  have hc : contoursOf cv
        ⟨e, bl, ct, cr, ca, (spikesOf cv imageIn).lowestSpike, po, go, mn, c, display⟩ imageIn
      = contoursOf cv
        ⟨e, bl, ct, cr, ca, (spikesOf cv imageIn).lowestSpike, po, go, mn, c, d⟩ imageIn :=
    rfl
  simp only [findPupil, setDisplay, hc]
  cases mergeLoop
      (contoursOf cv
        ⟨e, bl, ct, cr, ca, (spikesOf cv imageIn).lowestSpike, po, go, mn, c, d⟩ imageIn)
      mn fuel
      (mergeInit
        (contoursOf cv
          ⟨e, bl, ct, cr, ca, (spikesOf cv imageIn).lowestSpike, po, go, mn, c, d⟩ imageIn)) with
  | none => rfl
  | some mv =>
    simp only []
    split <;> simp

/-- C19. A newly constructed tracker has blur 5, canny threshold 159, canny ratio
2, canny aperture 5, pupil intensity offset 11, glint intensity offset 5,
minimum contour size 80, and its debug display is off.  The values are those
that the body of the constructor assigns, whatever the members held before:
on every storage the body yields the same object, and the display flag is
the one that the call `setDisplay(false)` leaves. -/
theorem C19_constructor_defaults (storage : PupilTracker) :
    PupilTracker.constructorBody storage = PupilTracker.PupilTracker ∧
    (PupilTracker.constructorBody storage).m_blur = 5 ∧
    (PupilTracker.constructorBody storage).m_canny_thresh = 159 ∧
    (PupilTracker.constructorBody storage).m_canny_ratio = 2 ∧
    (PupilTracker.constructorBody storage).m_canny_aperture = 5 ∧
    (PupilTracker.constructorBody storage).m_pupilIntensityOffset = 11 ∧
    (PupilTracker.constructorBody storage).m_glintIntensityOffset = 5 ∧
    (PupilTracker.constructorBody storage).m_min_contour_size = 80 ∧
    (PupilTracker.constructorBody storage).m_display = false ∧
    PupilTracker.PupilTracker.m_blur = 5 ∧
    PupilTracker.PupilTracker.m_canny_thresh = 159 ∧
    PupilTracker.PupilTracker.m_canny_ratio = 2 ∧
    PupilTracker.PupilTracker.m_canny_aperture = 5 ∧
    PupilTracker.PupilTracker.m_pupilIntensityOffset = 11 ∧
    PupilTracker.PupilTracker.m_glintIntensityOffset = 5 ∧
    PupilTracker.PupilTracker.m_min_contour_size = 80 ∧
    PupilTracker.PupilTracker.m_display = false ∧
    uninitialised.m_display = true ∧
    configOf PupilTracker.PupilTracker = ⟨5, 159, 2, 5, 11, 5, 80⟩ :=
  ⟨rfl, rfl, rfl, rfl, rfl, rfl, rfl, rfl, rfl, rfl, rfl, rfl, rfl, rfl, rfl, rfl, rfl, rfl,
    rfl⟩

/-- C20. The configuration is constant across calls.  A call of `findPupil` that
returns, with either flag, leaves blur, canny threshold, ratio and aperture,
the two intensity offsets, the minimum contour size, the display flag and the
confidence field as they were: the object after the call is the object before
the call with `m_bin_thresh` and the stored ellipse replaced. -/
theorem C20_call_changes_threshold_and_ellipse_only {Mat : Type} (cv : OpenCV Mat)
    (fuel : Nat) (t : PupilTracker) (imageIn : Mat) (run : FindPupilRun Mat)
    (h : findPupil cv fuel t imageIn = some run) :
    run.tracker.m_blur = t.m_blur ∧
    run.tracker.m_canny_thresh = t.m_canny_thresh ∧
    run.tracker.m_canny_ratio = t.m_canny_ratio ∧
    run.tracker.m_canny_aperture = t.m_canny_aperture ∧
    run.tracker.m_pupilIntensityOffset = t.m_pupilIntensityOffset ∧
    run.tracker.m_glintIntensityOffset = t.m_glintIntensityOffset ∧
    run.tracker.m_min_contour_size = t.m_min_contour_size ∧
    run.tracker.m_display = t.m_display ∧
    run.tracker.m_confidence = t.m_confidence ∧
    run.tracker =
      { t with
        m_bin_thresh := run.tracker.m_bin_thresh
        m_ellipseRectangle := run.tracker.m_ellipseRectangle } := by
  obtain ⟨_, _, _, ht⟩ := findPupil_tracker cv fuel t imageIn run h
  rw [ht]
  exact ⟨rfl, rfl, rfl, rfl, rfl, rfl, rfl, rfl, rfl, rfl⟩

/-- Witness for C20: the used tracker on the sample contours `[[p00, p10], [p00]]`. -/
theorem C20_call_changes_threshold_and_ellipse_only_witness :
    ∃ run : FindPupilRun (List Contour),
      findPupil contourLib 41 usedTracker [[p00, p10], [p00]] = some run ∧
      (run.tracker.m_blur = usedTracker.m_blur ∧
        run.tracker.m_canny_thresh = usedTracker.m_canny_thresh ∧
        run.tracker.m_canny_ratio = usedTracker.m_canny_ratio ∧
        run.tracker.m_canny_aperture = usedTracker.m_canny_aperture ∧
        run.tracker.m_pupilIntensityOffset = usedTracker.m_pupilIntensityOffset ∧
        run.tracker.m_glintIntensityOffset = usedTracker.m_glintIntensityOffset ∧
        run.tracker.m_min_contour_size = usedTracker.m_min_contour_size ∧
        run.tracker.m_display = usedTracker.m_display ∧
        run.tracker.m_confidence = usedTracker.m_confidence ∧
        run.tracker =
          { usedTracker with
            m_bin_thresh := run.tracker.m_bin_thresh
            m_ellipseRectangle := run.tracker.m_ellipseRectangle }) :=
  ⟨_, rfl,
    C20_call_changes_threshold_and_ellipse_only contourLib 41 usedTracker [[p00, p10], [p00]] _
      rfl⟩

/-- C21, the code at a failing input.  For a uniform frame of 100 x 100 pixels
(its normalized grayscale image is all 0, so bin 0 of the histogram holds all
10000 pixels and no other bin reaches the minimum spike size) `findPupil` does
not apply the defaults 0 and 255: the scan counts two spikes, at the byte
offsets 1 and 3 of the float 10000.0, and the levels are `lowestSpike = 1` and
`highestSpike = 3`.  The rest holds: with the light-mask bound `3 - 5 < 0` no
pixel is selected, the pruned edge map is blank whatever edges `cv::Canny`
reports, no contour is found, `cv::fitEllipse` is not called and the call
returns `false`. -/
theorem C21_uniform_frame_skips_defaults (cv : OpenCV Gray) (fuel : Nat) :
    countIntensity (blankFrame 100 100) 0 = 10000 ∧
    ∃ run : FindPupilRun Gray,
      findPupil (frameOps cv) fuel PupilTracker.PupilTracker (blankFrame 100 100) = some run ∧
      run.lowestSpike = 1 ∧ run.highestSpike = 3 ∧
      run.contours = [] ∧ run.fitCalls = [] ∧ run.returned = false := by
  have hcount : countIntensity (blankFrame 100 100) 0 = 10000 := by
    rw [countIntensity_blankFrame]; rfl
  have hs : spikesOf (frameOps cv) (blankFrame 100 100) = ⟨1, 3, 2⟩ := by
    rw [spikesOf_frameOps cv _ 10000 hcount
      (fun k h1 _ => by rw [countIntensity_blankFrame, if_neg (by omega)])]
    decide
  have hnil : contoursOf (frameOps cv) PupilTracker.PupilTracker (blankFrame 100 100) = [] :=
    contoursOf_frameOps_of_neg cv _ _ (by rw [hs]; decide)
  obtain ⟨run, hrun, hl, hh, hc, _, hf, hr⟩ :=
    findPupil_of_no_contours (frameOps cv) fuel PupilTracker.PupilTracker _ hnil
  rw [hs] at hl hh
  exact ⟨hcount, run, hrun, hl, hh, hc, hf, hr⟩

/-- C22, counterexample to the claim as stated.  A single-channel frame is not
accepted: `cv::cvtColor` with `cv::COLOR_BGR2GRAY`, the first library call of
`findPupil`, raises an error for it.  And a 3-channel frame whose contours are
`[p00, p10]` and `[p00]` ends in an error of `cv::fitEllipse`, which is called
on the 2 merged points. -/
theorem C22_counterexample_single_channel :
    cvtColorAccepts 1 = false ∧
    findPupilEnd contourLib 1 41 PupilTracker.PupilTracker [[p00, p10], [p00]]
      = some CallEnd.cvtColorError ∧
    findPupilEnd contourLib 3 41 PupilTracker.PupilTracker [[p00, p10], [p00]]
      = some CallEnd.fitEllipseError := by
  decide

/-- C22, as amended.  `findPupil` hands every frame to `cv::cvtColor` with
`cv::COLOR_BGR2GRAY` and works on the normalized result; a frame with a number
of channels other than 3 or 4 ends the call with the error of that routine.
For a frame of 3 (or 4) channels and minimum contour size 80 the call ends in
one of three ways: it returns `false` when there is no contour, it returns
`true` when there are contours and at least 5 merged points, and it ends with
the error of `cv::fitEllipse` when there are contours and fewer than 5 merged
points. -/
theorem C22_three_channel_frames_only {Mat : Type} (cv : OpenCV Mat) (channels : Nat)
    (fuel : Nat) (t : PupilTracker) (imageIn : Mat) (hch : channels = 3 ∨ channels = 4)
    (hmin : t.m_min_contour_size = 80) (hfuel : 41 ≤ fuel) :
    imageGrayOf cv imageIn = cv.normalize (cv.cvtColor imageIn) 0 255 ∧
    (∀ ch : Nat, ch ≠ 3 → ch ≠ 4 →
      findPupilEnd cv ch fuel t imageIn = some CallEnd.cvtColorError) ∧
    ∃ (run : FindPupilRun Mat) (e : CallEnd),
      findPupil cv fuel t imageIn = some run ∧
      findPupilEnd cv channels fuel t imageIn = some e ∧
      (run.contours = [] → e = CallEnd.returned false) ∧
      (run.contours ≠ [] → 5 ≤ run.merged.contoursMerged.length →
        e = CallEnd.returned true) ∧
      (run.contours ≠ [] → run.merged.contoursMerged.length < 5 →
        e = CallEnd.fitEllipseError) := by
  refine ⟨rfl, ?_, ?_⟩
  · intro ch h3 h4
    unfold findPupilEnd
    rw [if_neg]
    simp [cvtColorAccepts, h3, h4]
  · obtain ⟨run, hrun, _, hf, hr, hnil, hcons⟩ :=
      success_iff_contours cv t imageIn fuel hmin hfuel
    have hacc : cvtColorAccepts channels = true := by
      rcases hch with rfl | rfl <;> rfl
    refine ⟨run, (if run.fitCalls.all fitEllipseAccepts then CallEnd.returned run.returned
      else CallEnd.fitEllipseError), hrun, ?_, ?_, ?_, ?_⟩
    · unfold findPupilEnd
      rw [if_pos hacc, hrun]
      rfl
    · intro h
      have hs := hnil h
      rw [hs] at hf hr
      simp [hf, hr]
    · intro h h5
      have hs := hcons h
      rw [hs] at hf hr
      simp [hf, hr, fitEllipseAccepts, h5]
    · intro h h5
      have hs := hcons h
      rw [hs] at hf hr
      simp [hf, hr, fitEllipseAccepts, h5]

/-- Witness for C22: a 3-channel frame with the sample contours `[[p00, p10], [p00]]`
and the constructed tracker. -/
theorem C22_three_channel_frames_only_witness :
    ((3 : Nat) = 3 ∨ (3 : Nat) = 4) ∧
    (PupilTracker.PupilTracker.m_min_contour_size = 80) ∧
    (41 ≤ 41) ∧
    (imageGrayOf contourLib [[p00, p10], [p00]]
        = contourLib.normalize (contourLib.cvtColor [[p00, p10], [p00]]) 0 255 ∧
      (∀ ch : Nat, ch ≠ 3 → ch ≠ 4 →
        findPupilEnd contourLib ch 41 PupilTracker.PupilTracker [[p00, p10], [p00]]
          = some CallEnd.cvtColorError) ∧
      ∃ (run : FindPupilRun (List Contour)) (e : CallEnd),
        findPupil contourLib 41 PupilTracker.PupilTracker [[p00, p10], [p00]] = some run ∧
        findPupilEnd contourLib 3 41 PupilTracker.PupilTracker [[p00, p10], [p00]] = some e ∧
        (run.contours = [] → e = CallEnd.returned false) ∧
        (run.contours ≠ [] → 5 ≤ run.merged.contoursMerged.length →
          e = CallEnd.returned true) ∧
        (run.contours ≠ [] → run.merged.contoursMerged.length < 5 →
          e = CallEnd.fitEllipseError)) :=
  ⟨Or.inl rfl, rfl, by decide,
    C22_three_channel_frames_only contourLib 3 41 PupilTracker.PupilTracker [[p00, p10], [p00]]
      (Or.inl rfl) rfl (by decide)⟩

/-- C24. Monotonic relaxation.  For a tracker with minimum contour size 80 the
thresholds `m_min_contour_size - relaxContourMerge` of the successive passes of
the merge loop are `80, 78, 76, ...`: the first pass uses the minimum contour
size itself, every later pass follows a pass in which no contour qualified and
uses a threshold exactly 2 lower than that pass, and the sequence is
non-increasing. -/
theorem C24_thresholds_decrease_by_two {Mat : Type} (cv : OpenCV Mat) (t : PupilTracker)
    (imageIn : Mat) (fuel : Nat) (hmin : t.m_min_contour_size = 80) (hfuel : 41 ≤ fuel) :
    ∃ run : FindPupilRun Mat,
      findPupil cv fuel t imageIn = some run ∧
      run.contours = contoursOf cv t imageIn ∧
      (run.contours ≠ [] → run.merge.thresholds.head? = some t.m_min_contour_size) ∧
      (∀ i : Nat, i < run.merge.passes →
        run.merge.thresholds.getD i 0 = t.m_min_contour_size - 2 * (i : Int)) ∧
      (∀ i : Nat, i + 1 < run.merge.passes →
        run.merge.thresholds.getD (i + 1) 0 = run.merge.thresholds.getD i 0 - 2 ∧
        ∀ c ∈ run.contours,
          sizeTooSmall c.length t.m_min_contour_size
            (t.m_min_contour_size - run.merge.thresholds.getD i 0) = true) ∧
      run.merge.thresholds.Pairwise (fun a b => b ≤ a) := by
  obtain ⟨run, hrun, _, _, hc, _, _, _, _, _, _, hnil, hcons⟩ :=
    findPupil_80 cv t imageIn fuel hmin hfuel
  refine ⟨run, hrun, hc, ?_, ?_, ?_, ?_⟩
  all_goals by_cases hne : run.contours = []
  · intro h; exact absurd hne h
  · intro _
    obtain ⟨j, _, _, _, hm⟩ := hcons hne
    rw [hm, hmin]
    simp [List.range_succ_eq_map]
  · rw [hnil hne]; intro i hi; simp [MergeVars.passes, mergeInit] at hi
  · obtain ⟨j, _, _, _, hm⟩ := hcons hne
    rw [hm, hmin]
    intro i hi
    simp only [MergeVars.passes, List.length_map, List.length_range] at hi
    simp [List.getD_eq_getElem?_getD, List.getElem?_map, List.getElem?_range hi]
  · rw [hnil hne]; intro i hi; simp [MergeVars.passes, mergeInit] at hi
  · obtain ⟨j, hj, _, hfail, hm⟩ := hcons hne
    rw [hm, hmin]
    intro i hi
    simp only [MergeVars.passes, List.length_map, List.length_range] at hi
    have hi1 : i < j + 1 := by omega
    simp only [List.getD_eq_getElem?_getD, List.getElem?_map, List.getElem?_range hi,
      List.getElem?_range hi1, Option.map_some', Option.getD_some]
    refine ⟨by push_cast; omega, ?_⟩
    intro c hcm
    rw [sizeTooSmall_eq _ _ _ (by omega) (by omega)]
    have := hfail i (by omega) c hcm
    simp only [decide_eq_true_eq]
    omega
  · rw [hnil hne]; simp [mergeInit]
  · obtain ⟨j, _, _, _, hm⟩ := hcons hne
    rw [hm]
    rw [List.pairwise_map]
    have hlt : (List.range (j + 1)).Pairwise (fun a b => a < b) := List.pairwise_lt_range _
    exact hlt.imp (fun {a b} hab => by omega)

/-- Witness for C24: the hypotheses hold for the constructed tracker on the sample
contours `[[p00, p10], [p00]]`. -/
theorem C24_thresholds_decrease_by_two_witness :
    (PupilTracker.PupilTracker.m_min_contour_size = 80) ∧
    (41 ≤ 41) ∧
    (∃ run : FindPupilRun (List Contour),
      findPupil contourLib 41 PupilTracker.PupilTracker [[p00, p10], [p00]] = some run ∧
      run.contours = contoursOf contourLib PupilTracker.PupilTracker [[p00, p10], [p00]] ∧
      (run.contours ≠ [] → run.merge.thresholds.head? = some PupilTracker.PupilTracker.m_min_contour_size) ∧
      (∀ i : Nat, i < run.merge.passes →
        run.merge.thresholds.getD i 0 = PupilTracker.PupilTracker.m_min_contour_size - 2 * (i : Int)) ∧
      (∀ i : Nat, i + 1 < run.merge.passes →
        run.merge.thresholds.getD (i + 1) 0 = run.merge.thresholds.getD i 0 - 2 ∧
        ∀ c ∈ run.contours,
          sizeTooSmall c.length PupilTracker.PupilTracker.m_min_contour_size
            (PupilTracker.PupilTracker.m_min_contour_size - run.merge.thresholds.getD i 0) = true) ∧
      run.merge.thresholds.Pairwise (fun a b => b ≤ a)) :=
  ⟨rfl, by decide,
    C24_thresholds_decrease_by_two contourLib PupilTracker.PupilTracker [[p00, p10], [p00]] 41  rfl (by decide)⟩

/-- C25. With the minimum contour size 80, whenever the pruned edge map yields
at least one contour (of whatever point counts) the merge stage of `findPupil`
marks at least one contour mergeable and sets `success`; so `cv::fitEllipse` is
reached (it is called, once, on the merged point set) exactly when there is
at least one contour. -/
theorem C25_some_contour_always_merged {Mat : Type} (cv : OpenCV Mat) (t : PupilTracker)
    (imageIn : Mat) (fuel : Nat) (hmin : t.m_min_contour_size = 80) (hfuel : 41 ≤ fuel) :
    ∃ run : FindPupilRun Mat,
      findPupil cv fuel t imageIn = some run ∧
      run.contours = contoursOf cv t imageIn ∧
      (run.contours ≠ [] →
        (∃ i, i < run.contours.length ∧ run.merge.contourMergeable.getD i false = true) ∧
        run.merged.success = true ∧
        run.fitCalls = [run.merged.contoursMerged]) ∧
      (run.contours = [] → run.merged.success = false ∧ run.fitCalls = []) ∧
      (run.fitCalls ≠ [] ↔ run.contours ≠ []) := by
  obtain ⟨run, hrun, _, _, hc, hlen, _, hs, hf, hr, _, hnil, hcons⟩ :=
    findPupil_80 cv t imageIn fuel hmin hfuel
  have hsucc : run.contours ≠ [] → run.merged.success = true := by
    intro hne
    obtain ⟨j, _, ⟨c0, hc0, hq0⟩, _, hm⟩ := hcons hne
    rw [hs, hm, List.any_eq_true]
    exact ⟨true, by simp only [List.mem_map, decide_eq_true_eq]; exact ⟨c0, hc0, hq0⟩, rfl⟩
  have hfail : run.contours = [] → run.merged.success = false := by
    intro h
    rw [hs, hnil h]; simp [mergeInit]
  refine ⟨run, hrun, hc, ?_, ?_, ?_⟩
  · intro hne
    refine ⟨?_, hsucc hne, ?_⟩
    · have := hsucc hne
      rw [hs] at this
      exact (any_id_iff_getD _ _ hlen).mp this
    · rw [hf, hsucc hne]; simp
  · intro h
    refine ⟨hfail h, ?_⟩
    rw [hf, hfail h]; simp
  · rw [hf]
    by_cases hne : run.contours = []
    · simp [hfail hne, hne]
    · simp [hsucc hne, hne]

/-- Witness for C25: the hypotheses hold for the constructed tracker on the sample
contours `[[p00, p10], [p00]]`. -/
theorem C25_some_contour_always_merged_witness :
    (PupilTracker.PupilTracker.m_min_contour_size = 80) ∧
    (41 ≤ 41) ∧
    (∃ run : FindPupilRun (List Contour),
      findPupil contourLib 41 PupilTracker.PupilTracker [[p00, p10], [p00]] = some run ∧
      run.contours = contoursOf contourLib PupilTracker.PupilTracker [[p00, p10], [p00]] ∧
      (run.contours ≠ [] →
        (∃ i, i < run.contours.length ∧ run.merge.contourMergeable.getD i false = true) ∧
        run.merged.success = true ∧
        run.fitCalls = [run.merged.contoursMerged]) ∧
      (run.contours = [] → run.merged.success = false ∧ run.fitCalls = []) ∧
      (run.fitCalls ≠ [] ↔ run.contours ≠ [])) :=
  ⟨rfl, by decide,
    C25_some_contour_always_merged contourLib PupilTracker.PupilTracker [[p00, p10], [p00]] 41  rfl (by decide)⟩

/-- C26. Exact pass count.  For a tracker with minimum contour size 80 and a
non-empty list of contours whose largest point count is `M`, the merge loop of
`findPupil` performs exactly `ceil(max(80 - M, 0) / 2) + 1` passes, at most 41;
every contour of `M` points is mergeable at the exit; and if `M >= 80` the
mergeable contours are exactly those of at least 80 points. -/
theorem C26_exact_pass_count {Mat : Type} (cv : OpenCV Mat) (t : PupilTracker)
    (imageIn : Mat) (fuel : Nat) (M : Nat) (hmin : t.m_min_contour_size = 80)
    (hfuel : 41 ≤ fuel) (hM : ∃ c ∈ contoursOf cv t imageIn, c.length = M)
    (hmax : ∀ c ∈ contoursOf cv t imageIn, c.length ≤ M) :
    ∃ run : FindPupilRun Mat,
      findPupil cv fuel t imageIn = some run ∧
      run.contours = contoursOf cv t imageIn ∧
      (run.merge.passes : Int) = (max ((80 : Int) - M) 0 + 1) / 2 + 1 ∧
      run.merge.passes ≤ 41 ∧
      (∀ i, i < run.contours.length → (run.contours.getD i []).length = M →
        run.merge.contourMergeable.getD i false = true) ∧
      (80 ≤ M → ∀ i, i < run.contours.length →
        (run.merge.contourMergeable.getD i false = true ↔
          80 ≤ (run.contours.getD i []).length)) := by
  obtain ⟨run, hrun, _, _, hc, _, _, _, _, _, _, _, hcons⟩ :=
    findPupil_80 cv t imageIn fuel hmin hfuel
  obtain ⟨cM, hcM, hlenM⟩ := hM
  have hne : run.contours ≠ [] := by rw [hc]; exact List.ne_nil_of_mem hcM
  obtain ⟨j, hj, ⟨c0, hc0, hq0⟩, hfail, hm⟩ := hcons hne
  have hc0M : c0.length ≤ M := hmax c0 (by rw [← hc]; exact hc0)
  have hjle : j ≤ (80 - M + 1) / 2 := by
    by_contra hcon
    have := hfail ((80 - M + 1) / 2) (by omega) cM (by rw [hc]; exact hcM)
    omega
  have hjeq : j = (80 - M + 1) / 2 := by omega
  have hflag : ∀ i, i < run.contours.length →
      (run.merge.contourMergeable.getD i false = true ↔
        (80 : Int) - 2 * j ≤ (run.contours.getD i []).length) := by
    intro i hi
    rw [hm]
    simp only [List.getD_eq_getElem?_getD, List.getElem?_map, List.getElem?_eq_getElem hi,
      Option.map_some', Option.getD_some, decide_eq_true_eq]
  refine ⟨run, hrun, hc, ?_, ?_, ?_, ?_⟩
  · have hp : run.merge.passes = j + 1 := by rw [hm]; simp [MergeVars.passes]
    rw [hp]
    omega
  · rw [hm]; simp [MergeVars.passes]; omega
  · intro i hi hiM
    rw [hflag i hi, hiM]
    omega
  · intro h80 i hi
    rw [hflag i hi]
    have hj0 : j = 0 := by omega
    rw [hj0]
    simp

/-- Witness for C26: the hypotheses hold for the constructed tracker on the sample
contours `[[p00, p10], [p00]]`. -/
theorem C26_exact_pass_count_witness :
    (PupilTracker.PupilTracker.m_min_contour_size = 80) ∧
    (41 ≤ 41) ∧
    (∃ c ∈ contoursOf contourLib PupilTracker.PupilTracker [[p00, p10], [p00]], c.length = 2) ∧
    (∀ c ∈ contoursOf contourLib PupilTracker.PupilTracker [[p00, p10], [p00]], c.length ≤ 2) ∧
    (∃ run : FindPupilRun (List Contour),
      findPupil contourLib 41 PupilTracker.PupilTracker [[p00, p10], [p00]] = some run ∧
      run.contours = contoursOf contourLib PupilTracker.PupilTracker [[p00, p10], [p00]] ∧
      (run.merge.passes : Int) = (max ((80 : Int) - (2 : Nat)) 0 + 1) / 2 + 1 ∧
      run.merge.passes ≤ 41 ∧
      (∀ i, i < run.contours.length → (run.contours.getD i []).length = 2 →
        run.merge.contourMergeable.getD i false = true) ∧
      (80 ≤ 2 → ∀ i, i < run.contours.length →
        (run.merge.contourMergeable.getD i false = true ↔
          80 ≤ (run.contours.getD i []).length))) :=
  ⟨rfl, by decide, by decide, by decide,
    C26_exact_pass_count contourLib PupilTracker.PupilTracker [[p00, p10], [p00]] 41 2 rfl (by decide) (by decide) (by decide)⟩

/-- C27. The size test is an unsigned comparison: a negative `int` on the right
becomes a `size_t` of at least `2 ^ 64 - 2 ^ 31`, against which every point
count below that bound is too small.  For a tracker with minimum contour size
80 this never happens: at every evaluation of the test the right operand
`m_min_contour_size - relaxContourMerge` lies in [0, 80] (so
`relaxContourMerge` is at most 80 there), the test then agrees with the
comparison of integers, and `relaxContourMerge` ends at twice the number of
passes, at most 82, far from the range of an `int`. -/
theorem C27_size_test_never_wraps {Mat : Type} (cv : OpenCV Mat) (t : PupilTracker)
    (imageIn : Mat) (fuel : Nat) (hmin : t.m_min_contour_size = 80) (hfuel : 41 ≤ fuel) :
    (∀ (z : Int) (n : Nat), -(2 ^ 31) ≤ z → z < 0 → n < 2 ^ 64 - 2 ^ 31 →
      sizeTooSmall n z 0 = true) ∧
    ∃ run : FindPupilRun Mat,
      findPupil cv fuel t imageIn = some run ∧
      run.contours = contoursOf cv t imageIn ∧
      (∀ τ ∈ run.merge.thresholds,
        0 ≤ τ ∧ τ ≤ 80 ∧ t.m_min_contour_size - τ ≤ 80 ∧
        ∀ n : Nat,
          sizeTooSmall n t.m_min_contour_size (t.m_min_contour_size - τ)
            = decide ((n : Int) < τ)) ∧
      run.merge.relaxContourMerge = 2 * (run.merge.passes : Int) ∧
      0 ≤ run.merge.relaxContourMerge ∧ run.merge.relaxContourMerge ≤ 82 := by
  constructor
  · intro z n hz1 hz2 hn
    unfold sizeTooSmall toSizeT
    simp only [decide_eq_true_eq, sub_zero]
    omega
  · obtain ⟨run, hrun, _, _, hc, _, _, _, _, _, _, hnil, hcons⟩ :=
      findPupil_80 cv t imageIn fuel hmin hfuel
    refine ⟨run, hrun, hc, ?_⟩
    by_cases hne : run.contours = []
    · rw [hnil hne]
      simp [mergeInit, MergeVars.passes]
    · obtain ⟨j, hj, _, _, hm⟩ := hcons hne
      rw [hm, hmin]
      refine ⟨?_, by simp [MergeVars.passes]; ring, by simp only []; omega,
        by simp only []; omega⟩
      intro τ hτ
      simp only [List.mem_map, List.mem_range] at hτ
      obtain ⟨i, hi, rfl⟩ := hτ
      refine ⟨by omega, by omega, by omega, fun n => ?_⟩
      rw [sizeTooSmall_eq _ _ _ (by omega) (by omega)]
      congr 1
      apply propext
      omega

/-- Witness for C27: the hypotheses hold for the constructed tracker on the sample
contours `[[p00, p10], [p00]]`. -/
theorem C27_size_test_never_wraps_witness :
    (PupilTracker.PupilTracker.m_min_contour_size = 80) ∧
    (41 ≤ 41) ∧
    ((∀ (z : Int) (n : Nat), -(2 ^ 31) ≤ z → z < 0 → n < 2 ^ 64 - 2 ^ 31 →
      sizeTooSmall n z 0 = true) ∧
    ∃ run : FindPupilRun (List Contour),
      findPupil contourLib 41 PupilTracker.PupilTracker [[p00, p10], [p00]] = some run ∧
      run.contours = contoursOf contourLib PupilTracker.PupilTracker [[p00, p10], [p00]] ∧
      (∀ τ ∈ run.merge.thresholds,
        0 ≤ τ ∧ τ ≤ 80 ∧ PupilTracker.PupilTracker.m_min_contour_size - τ ≤ 80 ∧
        ∀ n : Nat,
          sizeTooSmall n PupilTracker.PupilTracker.m_min_contour_size (PupilTracker.PupilTracker.m_min_contour_size - τ)
            = decide ((n : Int) < τ)) ∧
      run.merge.relaxContourMerge = 2 * (run.merge.passes : Int) ∧
      0 ≤ run.merge.relaxContourMerge ∧ run.merge.relaxContourMerge ≤ 82) :=
  ⟨rfl, by decide,
    C27_size_test_never_wraps contourLib PupilTracker.PupilTracker [[p00, p10], [p00]] 41  rfl (by decide)⟩

/-- C28, the code at a failing input.  In `smallUniformCounts`, the histogram of a
frame of 30 pixels of intensity 0, no bin reaches the minimum spike size 40, so
the claim asks for the pair 0 and 255 (and reading the counts themselves gives
it).  The loop of `findPupil` reads bytes of the float storage: it counts two
spikes, at the byte offsets 2 and 3 of the float 30.0 in bin 0 (bytes 0xF0 and
0x41), and yields `lowestSpike = 2` and `highestSpike = 3`.  The other two parts
of the claim hold: the levels are strictly ordered for every reading of the
histogram. -/
theorem C28_no_spike_bin_misses_defaults :
    smallUniformCounts.length = 256 ∧
    spikeBins smallUniformCounts = [] ∧
    findSpikes (fun i => smallUniformCounts.getD i 0) =
      { lowestSpike := 0, highestSpike := 255, numSpikes := 0 } ∧
    findSpikes (histAtUchar (histOfCounts smallUniformCounts)) =
      { lowestSpike := 2, highestSpike := 3, numSpikes := 2 } ∧
    ∀ histAt : Nat → Nat,
      (findSpikes histAt).lowestSpike < (findSpikes histAt).highestSpike :=
  ⟨by decide, by decide, by decide, by decide, fun histAt => (findSpikes_lt histAt).1⟩

/-- C29. Morphology direction.  With the morphology of the library filled in,
the dark mask of `findPupil` is the threshold selection dilated twice and the
light mask is the threshold selection eroded once, both with the 7 x 7
elliptical structuring element, whose centre (the anchor) is set.  So every
pixel selected by the dark-mask threshold is selected in the dark mask, and
every pixel selected in the light mask was selected by the light-mask
threshold. -/
theorem C29_morphology_direction (cv : OpenCV Gray) (t : PupilTracker) (imageIn : Gray) :
    pixel (getStructuringElement 7 7) 3 3 = some 1 ∧
    ((0 : Int), (0 : Int)) ∈ kernelOffsets (getStructuringElement 7 7) ∧
    darkMaskOf (morphOps cv) t imageIn
      = dilateOnce (getStructuringElement 7 7)
          (dilateOnce (getStructuringElement 7 7)
            (inRange (imageGrayOf (morphOps cv) imageIn) 0
              ((spikesOf (morphOps cv) imageIn).lowestSpike + t.m_pupilIntensityOffset))) ∧
    glintMaskOf (morphOps cv) t imageIn
      = erodeOnce (getStructuringElement 7 7)
          (inRange (imageGrayOf (morphOps cv) imageIn) 0
            ((spikesOf (morphOps cv) imageIn).highestSpike - t.m_glintIntensityOffset)) ∧
    (∀ r c : Nat,
      Selected
          (inRange (imageGrayOf (morphOps cv) imageIn) 0
            ((spikesOf (morphOps cv) imageIn).lowestSpike + t.m_pupilIntensityOffset)) r c →
        Selected (darkMaskOf (morphOps cv) t imageIn) r c) ∧
    (∀ r c : Nat,
      Selected (glintMaskOf (morphOps cv) t imageIn) r c →
        Selected
          (inRange (imageGrayOf (morphOps cv) imageIn) 0
            ((spikesOf (morphOps cv) imageIn).highestSpike - t.m_glintIntensityOffset)) r c) := by
  have hd : darkMaskOf (morphOps cv) t imageIn
      = dilateOnce (getStructuringElement 7 7)
          (dilateOnce (getStructuringElement 7 7)
            (inRange (imageGrayOf (morphOps cv) imageIn) 0
              ((spikesOf (morphOps cv) imageIn).lowestSpike + t.m_pupilIntensityOffset))) := rfl
  have he : glintMaskOf (morphOps cv) t imageIn
      = erodeOnce (getStructuringElement 7 7)
          (inRange (imageGrayOf (morphOps cv) imageIn) 0
            ((spikesOf (morphOps cv) imageIn).highestSpike - t.m_glintIntensityOffset)) := rfl
  refine ⟨by decide, centre_mem_kernelOffsets, hd, he, ?_, ?_⟩
  · intro r c h
    rw [hd]
    exact selected_dilateOnce _ _ r c centre_mem_kernelOffsets
      (selected_dilateOnce _ _ r c centre_mem_kernelOffsets h)
  · intro r c h
    rw [he] at h
    exact selected_of_erodeOnce _ _ r c centre_mem_kernelOffsets h

/-- C30. Function `labelColor` returns the best fit.  The averages and the squared
errors are values of a linearly ordered type with the three operations of
`normSqr` (the order of the doubles that the code compares).  The function
returns `'x'` if and only if every reference colour has a squared error of at
least 3.0.  Otherwise it returns the label of a reference colour whose squared
error is below 3.0 and is the least of the six, and every reference colour
checked before it has a strictly larger squared error: among colours of equal
least error the earliest in the order red, green, blue, yellow, orange, white
is returned. -/
theorem C30_labelColor_best_fit {F : Type} [LinearOrder F] [Add F] [Sub F] [Mul F]
    [OfScientific F] (avg_b avg_g avg_r : F) :
    (refErrors avg_b avg_g avg_r).map Prod.snd = ['r', 'g', 'b', 'y', 'o', 'w'] ∧
    (refErrors avg_b avg_g avg_r).map Prod.fst =
      [normSqr 0.4 0.5 1.8 avg_b avg_g avg_r, normSqr 1.0 1.2 1.0 avg_b avg_g avg_r,
        normSqr 1.75 1.0 0.5 avg_b avg_g avg_r, normSqr 0.82 1.7 1.7 avg_b avg_g avg_r,
        normSqr 0.2 1.0 2.0 avg_b avg_g avg_r, normSqr 2.0 1.7 1.7 avg_b avg_g avg_r] ∧
    (labelColor avg_b avg_g avg_r = 'x' ↔
      ∀ q ∈ refErrors avg_b avg_g avg_r, (3.0 : F) ≤ q.1) ∧
    ((∀ q ∈ refErrors avg_b avg_g avg_r, (3.0 : F) ≤ q.1) ∨
      ∃ (i : Nat) (p : F × Char), (refErrors avg_b avg_g avg_r)[i]? = some p ∧
        labelColor avg_b avg_g avg_r = p.2 ∧
        p.1 < 3.0 ∧
        (∀ q ∈ refErrors avg_b avg_g avg_r, p.1 ≤ q.1) ∧
        ∀ (j : Nat) (q : F × Char), j < i → (refErrors avg_b avg_g avg_r)[j]? = some q →
          p.1 < q.1) := by
  refine ⟨rfl, rfl, ?_, ?_⟩
  · rw [labelColor_eq_foldl]
    rcases foldl_checkFitness (refErrors avg_b avg_g avg_r)
        ({ minError := 3.0, bestFit := 'x' } : FitVars F)
      with ⟨ht, hall⟩ | ⟨i, p, hp, ht, hlt, _, _⟩
    · rw [ht]
      exact ⟨fun _ => hall, fun _ => rfl⟩
    · rw [ht]
      have hmem : p ∈ refErrors avg_b avg_g avg_r := by
        obtain ⟨h, he⟩ := List.getElem?_eq_some_iff.mp hp
        rw [← he]; exact List.getElem_mem h
      constructor
      · intro hx
        exact absurd hx (refErrors_label_ne avg_b avg_g avg_r p hmem)
      · intro hall
        exact absurd hlt (not_lt.mpr (hall p hmem))
  · rw [labelColor_eq_foldl]
    rcases foldl_checkFitness (refErrors avg_b avg_g avg_r)
        ({ minError := 3.0, bestFit := 'x' } : FitVars F)
      with ⟨_, hall⟩ | ⟨i, p, hp, ht, hlt, hmin, hfirst⟩
    · left; exact hall
    · right
      refine ⟨i, p, hp, ?_, hlt, hmin, hfirst⟩
      rw [ht]

end Cse4316
